/-
Verification of the multi-group optimization coordinator
(`scrstudio/engine/optimizers.py`) against its specification.

The coordinator (`Optimizers`) is embedded shallowly:

* Python dictionaries become ordered association lists `List (String × α)`
  with first-match lookup (`alookup`), which matches Python dict semantics
  for distinct keys and records insertion order.
* Exceptions become an explicit error component (`PyError`): a `RuntimeError`
  is modelled as carrying the missing group name and the config key list
  (the data interpolated into its message), and a `KeyError` carries the key.
  Mutations performed before an exception is raised are kept, as in Python.
* Parameter tensors live in a heap `Store : Nat → Param`, shared by
  reference between the coordinator's `parameters` lists and the torch
  optimizers' `param_groups`, as tensors are shared in the source.
* External collaborators (torch optimizers, the gradient scaler, torch's
  `clip_grad_norm_`, the scheduler produced by a scheduler config) are
  modelled at the level of their documented contracts; calls out to them are
  additionally recorded in an event trace (`Event`) so that claims about
  which collaborator is invoked, for which group, and in which order can be
  stated exactly.
* A gradient is represented as `gradVec : Option (List ℚ)` (`none` is
  Python's `grad is None`) together with `gradScaleSq : ℚ`: the true
  gradient vector is `sqrt gradScaleSq • gradVec`.  Keeping the square of
  the common scale factor keeps gradient clipping (which multiplies the
  whole group by the irrational factor `min 1 (maxNorm / ‖g‖)`) inside
  exact rational arithmetic: the squared factor `min 1 (maxNorm^2 / ‖g‖²)`
  is rational.
-/
import Mathlib

/-- First-match lookup in an association list, as Python `d[k]` /
`k in d` over an insertion-ordered dict. -/
def alookup {α : Type} : String → List (String × α) → Option α
  | _, [] => none
  | k, (k', v) :: rest => if k = k' then some v else alookup k rest

/-- The key list of an association list, as Python `d.keys()`. -/
def akeys {α : Type} (l : List (String × α)) : List String :=
  l.map Prod.fst

/-- Update the first entry with the given key, leaving other entries alone;
models in-place mutation of the object stored under a dict key. -/
def aupdate {α : Type} (k : String) (f : α → α) : List (String × α) → List (String × α)
  | [] => []
  | (k', v) :: rest => if k = k' then (k', f v) :: rest else (k', v) :: aupdate k f rest

/-- A parameter tensor's gradient slot.  `gradVec = none` is `p.grad is None`;
otherwise the true gradient is `sqrt gradScaleSq • gradVec` (see header). -/
structure Param where
  gradVec : Option (List ℚ)
  gradScaleSq : ℚ
deriving DecidableEq

/-- The heap of parameter tensors, indexed by tensor identity. -/
def Store : Type := Nat → Param

/-- Algorithm selector (`_target` field): the torch optimizer class used. -/
inductive OptimAlgo where
  | adam
  | adamW
  | radam
deriving DecidableEq

/-- Model of `OptimizerConfig` and its subclasses (`AdamOptimizerConfig`, ...):
algorithm selector `_target`, `lr`, `eps`, optional `max_norm`, and the
`weight_decay` field the subclasses add (`none` for the base class). -/
structure OptimizerConfig where
  target : OptimAlgo
  lr : ℚ
  eps : ℚ
  max_norm : Option ℚ
  weight_decay : Option ℚ
deriving DecidableEq

/-- A constructed torch optimizer (external collaborator, contract level):
it records the constructor kwargs (`vars(self)` minus `_target` and
`max_norm`), wraps the parameter list in a single param group, counts the
steps applied to it, and carries an opaque loaded-state blob
(`load_state_dict` replaces it). -/
structure TorchOptimizer where
  algo : OptimAlgo
  lr : ℚ
  eps : ℚ
  weight_decay : Option ℚ
  param_groups : List (List Nat)
  stepCount : Nat
  internalState : Nat
deriving DecidableEq

/-- Model of `OptimizerConfig.setup`: instantiate `_target` with the kwargs of the
config minus `_target` and `max_norm`, over the group's parameters. -/
def OptimizerConfig.setup (cfg : OptimizerConfig) (params : List Nat) : TorchOptimizer :=
  { algo := cfg.target, lr := cfg.lr, eps := cfg.eps, weight_decay := cfg.weight_decay,
    param_groups := [params], stepCount := 0, internalState := 0 }

/-- Modelled from the spec: the scheduler configuration class
(`ExponentialDecaySchedulerConfig`, defined in `scrstudio/engine/schedulers.py`,
which is not part of the sources under verification).  Per the spec it
describes "an exponential-decay schedule toward a small terminal rate over a
fixed large step horizon"; the constructor arguments visible at the call
site in `optimizers.py` are `lr_final` and `max_steps`. -/
structure ExponentialDecaySchedulerConfig where
  lr_final : ℚ
  max_steps : Nat
deriving DecidableEq

/-- Modelled from the spec: a constructed scheduler
(`config.setup().get_scheduler(optimizer, lr_init)`), external to the
sources under verification.  It is bound to its configuration and the
group's initial learning rate, counts the steps applied to it, and carries
an opaque loaded-state blob. -/
structure Scheduler where
  cfg : ExponentialDecaySchedulerConfig
  lr_init : ℚ
  stepCount : Nat
  internalState : Nat
deriving DecidableEq

/-- One value of the construction-time `config` mapping: a Python dict that
may or may not carry the `"optimizer"` and `"scheduler"` keys.  The outer
`Option` is key presence; for `scheduler` the inner `Option` is the value
(`none` is Python `None`, which is falsy). -/
structure ConfigEntry where
  optimizer : Option OptimizerConfig
  scheduler : Option (Option ExponentialDecaySchedulerConfig)
deriving DecidableEq

/-- The exceptions `Optimizers` can raise.  `runtimeError g ks` stands for
the `RuntimeError` whose message interpolates the missing group name `g`
and the config key list `ks`; `keyError k` for `KeyError(k)`. -/
inductive PyError where
  | runtimeError (missingGroup : String) (configKeys : List String)
  | keyError (key : String)
deriving DecidableEq

/-- The state of the `Optimizers` coordinator: `self.config`,
`self.optimizers`, `self.schedulers`, `self.parameters`. -/
structure Optimizers where
  config : List (String × ConfigEntry)
  optimizers : List (String × TorchOptimizer)
  schedulers : List (String × Scheduler)
  parameters : List (String × List Nat)
deriving DecidableEq

/-- The default configuration entry synthesized for the legacy `camera_opt`
group: `AdamOptimizerConfig(lr=1e-3, eps=1e-15)` (which sets
`weight_decay=0`) plus
`ExponentialDecaySchedulerConfig(lr_final=1e-4, max_steps=30000)`. -/
def cameraOptDefaultEntry : ConfigEntry :=
  { optimizer := some { target := .adam, lr := 1/1000, eps := 1/10^15,
                        max_norm := none, weight_decay := some 0 },
    scheduler := some (some { lr_final := 1/10000, max_steps := 30000 }) }

/-- Result of `Optimizers.__init__`: possible exception, the coordinator
state built so far, and the number of deprecation warnings printed.  The
`coord.config` field is the caller-supplied config mapping as left after
the call (the source stores and mutates the caller's dict in place), also
when an exception aborted construction. -/
structure InitResult where
  err : Option PyError
  coord : Optimizers
  warnings : Nat
deriving DecidableEq

/-- The construction loop of `Optimizers.__init__` over the
`param_groups.items()` in insertion order.  For each group: the legacy
`camera_opt` default insertion (with deprecation warning), the missing-group
`RuntimeError`, the `config[g]["optimizer"]` read (whose `lr` is `lr_init`
and whose `setup` builds the optimizer), the `self.parameters` assignment,
and the `config[g]["scheduler"]` read with truthiness test guarding
scheduler construction. -/
def initLoop : List (String × List Nat) → Optimizers → Nat → InitResult
  | [], acc, w => { err := none, coord := acc, warnings := w }
  | (g, ps) :: rest, acc, w =>
    let cfg := if g = "camera_opt" ∧ alookup "camera_opt" acc.config = none
               then acc.config ++ [("camera_opt", cameraOptDefaultEntry)] else acc.config
    let w' := if g = "camera_opt" ∧ alookup "camera_opt" acc.config = none then w + 1 else w
    match alookup g cfg with
    | none =>
      { err := some (.runtimeError g (akeys cfg)),
        coord := { acc with config := cfg }, warnings := w' }
    | some entry =>
      match entry.optimizer with
      | none =>
        { err := some (.keyError "optimizer"),
          coord := { acc with config := cfg }, warnings := w' }
      | some ocfg =>
        let acc' : Optimizers :=
          { acc with config := cfg,
                     optimizers := acc.optimizers ++ [(g, ocfg.setup ps)],
                     parameters := acc.parameters ++ [(g, ps)] }
        match entry.scheduler with
        | none => { err := some (.keyError "scheduler"), coord := acc', warnings := w' }
        | some none => initLoop rest acc' w'
        | some (some scfg) =>
          initLoop rest
            { acc' with schedulers :=
                acc'.schedulers ++ [(g, { cfg := scfg, lr_init := ocfg.lr,
                                          stepCount := 0, internalState := 0 })] } w'

/-- Model of `Optimizers.__init__(config, param_groups)`. -/
def Optimizers.init (config : List (String × ConfigEntry))
    (param_groups : List (String × List Nat)) : InitResult :=
  initLoop param_groups
    { config := config, optimizers := [], schedulers := [], parameters := [] } 0

/-- Squared L2 norm a parameter's gradient contributes (0 when `grad is None`). -/
def paramNormSq (p : Param) : ℚ :=
  match p.gradVec with
  | none => 0
  | some v => p.gradScaleSq * (v.map (fun x => x * x)).sum

/-- Squared joint L2 norm of a group's gradients. -/
def groupNormSq (s : Store) (ps : List Nat) : ℚ :=
  (ps.map (fun pid => paramNormSq (s pid))).sum

/-- The square of the factor `torch.nn.utils.clip_grad_norm_` multiplies a
group's gradients by: 1 when the joint norm is already within the
threshold, else `t² / ‖g‖²` (so the clipped squared norm is `t²`). -/
def clipCoefSq (t nsq : ℚ) : ℚ :=
  if nsq ≤ t ^ 2 then 1 else t ^ 2 / nsq

/-- Model of `torch.nn.utils.clip_grad_norm_(params, t)` (external collaborator,
contract level): rescale the group's gradients in place by a common
nonnegative factor so the joint L2 norm does not exceed `t`, preserving
direction; parameters whose gradient is `None` are skipped. -/
def clipStore (s : Store) (ps : List Nat) (t : ℚ) : Store :=
  let c := clipCoefSq t (groupNormSq s ps)
  fun pid =>
    if pid ∈ ps ∧ ((s pid).gradVec).isSome then
      { s pid with gradScaleSq := (s pid).gradScaleSq * c }
    else s pid

/-- Model of `optimizer.zero_grad()` (external collaborator, contract level): set
the gradient of every parameter of the optimizer's param groups to `None`. -/
def zeroGradOpt (s : Store) (opt : TorchOptimizer) : Store :=
  fun pid =>
    if opt.param_groups.any (fun ps => decide (pid ∈ ps)) then
      { s pid with gradVec := none }
    else s pid

/-- The `any(any(p.grad is not None for p in g["params"]) for g in
optimizer.param_groups)` test. -/
def hasGradB (s : Store) (opt : TorchOptimizer) : Bool :=
  opt.param_groups.any (fun ps => ps.any (fun pid => ((s pid).gradVec).isSome))

/-- The external calls the coordinator makes, recorded as a trace. -/
inductive Event where
  | unscaleEv (g : String)
  | clipEv (g : String) (t : ℚ)
  | scalerStepEv (g : String)
  | optStepEv (g : String)
  | schedStepEv (g : String)
  | zeroGradEv (g : String)
deriving DecidableEq

/-- The gradient scaler (external collaborator); its numeric state is
internal to it and irrelevant to the coordinator's contract. -/
structure GradScaler where
  scale : ℚ
deriving DecidableEq

/-- Result of a coordinator operation: possible exception, coordinator
state, parameter heap, and the trace of external calls made.  As in
Python, mutations made before an exception stand. -/
structure OpResult where
  err : Option PyError
  coord : Optimizers
  store : Store
  events : List Event

/-- The body of the scaler-integrated stepping loop for one group `g` with
optimizer `opt`: read `config[g]["optimizer"].max_norm`; if set, unscale
via the scaler and clip `parameters[g]`; then, if any parameter of the
optimizer's param groups has a non-None gradient, delegate to
`grad_scaler.step(optimizer)` (modelled as one step applied to the
optimizer, the scaler's internal skip decision being external). -/
def scalerStepGroup (c : Optimizers) (g : String) (opt : TorchOptimizer) (s : Store) :
    Except PyError (TorchOptimizer × Store × List Event) :=
  match alookup g c.config with
  | none => .error (.keyError g)
  | some entry =>
    match entry.optimizer with
    | none => .error (.keyError "optimizer")
    | some ocfg =>
      let pre : Except PyError (Store × List Event) :=
        match ocfg.max_norm with
        | none => .ok (s, [])
        | some t =>
          match alookup g c.parameters with
          | none => .error (.keyError g)
          | some ps => .ok (clipStore s ps t, [.unscaleEv g, .clipEv g t])
      match pre with
      | .error e => .error e
      | .ok (s1, evs1) =>
        if hasGradB s1 opt then
          .ok ({ opt with stepCount := opt.stepCount + 1 }, s1, evs1 ++ [.scalerStepEv g])
        else
          .ok (opt, s1, evs1)

/-- Model of `optimizer_scaler_step_all`'s loop over `self.optimizers.items()`. -/
def ossAllLoop (c : Optimizers) :
    List (String × TorchOptimizer) → Store →
    Option PyError × List (String × TorchOptimizer) × Store × List Event
  | [], s => (none, [], s, [])
  | (g, opt) :: rest, s =>
    match scalerStepGroup c g opt s with
    | .error e => (some e, (g, opt) :: rest, s, [])
    | .ok (opt', s', evs) =>
      let r := ossAllLoop c rest s'
      (r.1, (g, opt') :: r.2.1, r.2.2.1, evs ++ r.2.2.2)

/-- Model of `Optimizers.optimizer_scaler_step_all(grad_scaler)`. -/
def Optimizers.optimizer_scaler_step_all (c : Optimizers) (_gs : GradScaler) (s : Store) :
    OpResult :=
  let r := ossAllLoop c c.optimizers s
  { err := r.1, coord := { c with optimizers := r.2.1 }, store := r.2.2.1, events := r.2.2.2 }

/-- Model of `optimizer_scaler_step_some`'s loop over the supplied group names. -/
def ossSomeLoop (c : Optimizers) :
    List String → List (String × TorchOptimizer) → Store →
    Option PyError × List (String × TorchOptimizer) × Store × List Event
  | [], opts, s => (none, opts, s, [])
  | g :: rest, opts, s =>
    match alookup g opts with
    | none => (some (.keyError g), opts, s, [])
    | some opt =>
      match scalerStepGroup c g opt s with
      | .error e => (some e, opts, s, [])
      | .ok (opt', s', evs) =>
        let r := ossSomeLoop c rest (aupdate g (fun _ => opt') opts) s'
        (r.1, r.2.1, r.2.2.1, evs ++ r.2.2.2)

/-- Model of `Optimizers.optimizer_scaler_step_some(grad_scaler, param_groups)`. -/
def Optimizers.optimizer_scaler_step_some (c : Optimizers) (_gs : GradScaler)
    (names : List String) (s : Store) : OpResult :=
  let r := ossSomeLoop c names c.optimizers s
  { err := r.1, coord := { c with optimizers := r.2.1 }, store := r.2.2.1, events := r.2.2.2 }

/-- The body of the plain stepping loop for one group: read
`config[g]["optimizer"].max_norm`; if set, clip `parameters[g]` (no
unscaling); then step the optimizer unconditionally. -/
def plainStepGroup (c : Optimizers) (g : String) (opt : TorchOptimizer) (s : Store) :
    Except PyError (TorchOptimizer × Store × List Event) :=
  match alookup g c.config with
  | none => .error (.keyError g)
  | some entry =>
    match entry.optimizer with
    | none => .error (.keyError "optimizer")
    | some ocfg =>
      let pre : Except PyError (Store × List Event) :=
        match ocfg.max_norm with
        | none => .ok (s, [])
        | some t =>
          match alookup g c.parameters with
          | none => .error (.keyError g)
          | some ps => .ok (clipStore s ps t, [.clipEv g t])
      match pre with
      | .error e => .error e
      | .ok (s1, evs1) =>
        .ok ({ opt with stepCount := opt.stepCount + 1 }, s1, evs1 ++ [.optStepEv g])

/-- Model of `optimizer_step_all`'s loop over `self.optimizers.items()`. -/
def osAllLoop (c : Optimizers) :
    List (String × TorchOptimizer) → Store →
    Option PyError × List (String × TorchOptimizer) × Store × List Event
  | [], s => (none, [], s, [])
  | (g, opt) :: rest, s =>
    match plainStepGroup c g opt s with
    | .error e => (some e, (g, opt) :: rest, s, [])
    | .ok (opt', s', evs) =>
      let r := osAllLoop c rest s'
      (r.1, (g, opt') :: r.2.1, r.2.2.1, evs ++ r.2.2.2)

/-- Model of `Optimizers.optimizer_step_all()`. -/
def Optimizers.optimizer_step_all (c : Optimizers) (s : Store) : OpResult :=
  let r := osAllLoop c c.optimizers s
  { err := r.1, coord := { c with optimizers := r.2.1 }, store := r.2.2.1, events := r.2.2.2 }

/-- Model of `Optimizers.optimizer_step(param_group_name)`: possible exception and
resulting coordinator state. -/
def Optimizers.optimizer_step (c : Optimizers) (g : String) : Option PyError × Optimizers :=
  match alookup g c.optimizers with
  | none => (some (.keyError g), c)
  | some _ =>
    (none, { c with optimizers :=
               aupdate g (fun o => { o with stepCount := o.stepCount + 1 }) c.optimizers })

/-- Model of `Optimizers.scheduler_step(param_group_name)`: the source tests
`"scheduler" in self.config[param_group_name]` (key presence) and then
indexes `self.schedulers[param_group_name]`.  Possible exception and
resulting coordinator state. -/
def Optimizers.scheduler_step (c : Optimizers) (g : String) : Option PyError × Optimizers :=
  match alookup g c.config with
  | none => (some (.keyError g), c)
  | some entry =>
    if (entry.scheduler).isSome then
      match alookup g c.schedulers with
      | none => (some (.keyError g), c)
      | some _ =>
        (none, { c with schedulers :=
                   aupdate g (fun sc => { sc with stepCount := sc.stepCount + 1 }) c.schedulers })
    else (none, c)

/-- Model of `zero_grad_all`'s loop over `self.optimizers.items()`. -/
def zgAllLoop : List (String × TorchOptimizer) → Store → Store × List Event
  | [], s => (s, [])
  | (g, opt) :: rest, s =>
    let r := zgAllLoop rest (zeroGradOpt s opt)
    (r.1, .zeroGradEv g :: r.2)

/-- Model of `Optimizers.zero_grad_all()`. -/
def Optimizers.zero_grad_all (c : Optimizers) (s : Store) : OpResult :=
  let r := zgAllLoop c.optimizers s
  { err := none, coord := c, store := r.1, events := r.2 }

/-- Model of `zero_grad_some`'s loop over the supplied group names. -/
def zgSomeLoop (c : Optimizers) : List String → Store →
    Option PyError × Store × List Event
  | [], s => (none, s, [])
  | g :: rest, s =>
    match alookup g c.optimizers with
    | none => (some (.keyError g), s, [])
    | some opt =>
      let r := zgSomeLoop c rest (zeroGradOpt s opt)
      (r.1, r.2.1, .zeroGradEv g :: r.2.2)

/-- Model of `Optimizers.zero_grad_some(param_groups)`. -/
def Optimizers.zero_grad_some (c : Optimizers) (names : List String) (s : Store) : OpResult :=
  let r := zgSomeLoop c names s
  { err := r.1, coord := c, store := r.2.1, events := r.2.2 }

/-- The shared loop shape of `load_optimizers` and `load_schedulers` over
`loaded_state.items()`: each known group's object has its state replaced via
`load_state_dict` (`upd`); an unknown group raises `KeyError`, keeping the
loads already applied. -/
def loadLoop {α : Type} (upd : α → Nat → α) :
    List (String × Nat) → List (String × α) → Option PyError × List (String × α)
  | [], m => (none, m)
  | (k, v) :: rest, m =>
    match alookup k m with
    | none => (some (.keyError k), m)
    | some _ => loadLoop upd rest (aupdate k (fun o => upd o v) m)

/-- Model of `Optimizers.load_optimizers(loaded_state)`. -/
def Optimizers.load_optimizers (c : Optimizers) (loaded : List (String × Nat)) :
    Option PyError × Optimizers :=
  let r := loadLoop (fun o v => { o with internalState := v }) loaded c.optimizers
  (r.1, { c with optimizers := r.2 })

/-- Model of `Optimizers.load_schedulers(loaded_state)`. -/
def Optimizers.load_schedulers (c : Optimizers) (loaded : List (String × Nat)) :
    Option PyError × Optimizers :=
  let r := loadLoop (fun sc v => { sc with internalState := v }) loaded c.schedulers
  (r.1, { c with schedulers := r.2 })

/-- Checks that a group entry of `self.optimizers` is wired the way
construction wires it: a config entry with an `"optimizer"` key exists, the
group has a parameter list, and the optimizer's param groups wrap exactly
that list. -/
def wfGroupB (c : Optimizers) (p : String × TorchOptimizer) : Bool :=
  match alookup p.1 c.config, alookup p.1 c.parameters with
  | some entry, some ps => (entry.optimizer).isSome && decide (p.2.param_groups = [ps])
  | _, _ => false

/-- Well-formed coordinator state: distinct group names (a Python dict
invariant) and every optimizer entry wired as construction wires it. -/
def WF (c : Optimizers) : Prop :=
  (akeys c.optimizers).Nodup ∧ ∀ p ∈ c.optimizers, wfGroupB c p = true

instance (c : Optimizers) : Decidable (WF c) := by
  unfold WF; infer_instance

/-- The caller contract that no parameter tensor is assigned to two
distinct groups (the spec: "overlap across groups is a caller error"). -/
def ParamsDisjoint (c : Optimizers) : Prop :=
  ∀ g₁ ∈ c.parameters, ∀ g₂ ∈ c.parameters,
    g₁.1 ≠ g₂.1 → ∀ pid ∈ g₁.2, pid ∉ g₂.2

instance (c : Optimizers) : Decidable (ParamsDisjoint c) := by
  unfold ParamsDisjoint; infer_instance

/-- The predicate that at least one of the group's parameters carries a non-null gradient,
phrased against the coordinator's own parameter list for the group. -/
def groupHasGrad (c : Optimizers) (s : Store) (g : String) : Prop :=
  ∃ ps, alookup g c.parameters = some ps ∧ ∃ pid ∈ ps, ((s pid).gradVec).isSome

instance (c : Optimizers) (s : Store) (g : String) : Decidable (groupHasGrad c s g) := by
  unfold groupHasGrad
  cases alookup g c.parameters <;> simp <;> infer_instance

/-! ### Association-list lemmas -/

theorem alookup_eq_none {α : Type} (k : String) (l : List (String × α)) :
    alookup k l = none ↔ k ∉ akeys l := by
  induction l with
  | nil => simp [alookup, akeys]
  | cons hd tl ih =>
    obtain ⟨k', v⟩ := hd
    by_cases h : k = k' <;> simp [alookup, akeys, h, ih]

theorem alookup_mem {α : Type} {k : String} {l : List (String × α)} {v : α}
    (h : alookup k l = some v) : (k, v) ∈ l := by
  induction l with
  | nil => simp [alookup] at h
  | cons hd tl ih =>
    obtain ⟨k', v'⟩ := hd
    by_cases hk : k = k'
    · subst hk
      simp [alookup] at h
      simp [h]
    · simp [alookup, hk] at h
      exact List.mem_cons_of_mem _ (ih h)

theorem alookup_append_left {α : Type} {k : String} {l : List (String × α)} {v : α}
    (m : List (String × α)) (h : alookup k l = some v) :
    alookup k (l ++ m) = some v := by
  induction l with
  | nil => simp [alookup] at h
  | cons hd tl ih =>
    obtain ⟨k', v'⟩ := hd
    by_cases hk : k = k' <;> simp_all [alookup]

theorem alookup_append_right {α : Type} {k : String} {l : List (String × α)}
    (m : List (String × α)) (h : alookup k l = none) :
    alookup k (l ++ m) = alookup k m := by
  induction l with
  | nil => simp [alookup]
  | cons hd tl ih =>
    obtain ⟨k', v'⟩ := hd
    by_cases hk : k = k' <;> simp_all [alookup]

theorem alookup_append_ne {α : Type} {k k' : String} (l : List (String × α)) (v : α)
    (h : k ≠ k') : alookup k (l ++ [(k', v)]) = alookup k l := by
  cases hl : alookup k l with
  | some w => exact alookup_append_left _ hl
  | none => rw [alookup_append_right _ hl]; simp [alookup, h]

theorem akeys_append {α : Type} (l m : List (String × α)) :
    akeys (l ++ m) = akeys l ++ akeys m := by
  simp [akeys]

theorem alookup_aupdate_ne {α : Type} {k k' : String} (f : α → α) (l : List (String × α))
    (h : k' ≠ k) : alookup k' (aupdate k f l) = alookup k' l := by
  induction l with
  | nil => simp [aupdate]
  | cons hd tl ih =>
    obtain ⟨k'', v⟩ := hd
    by_cases hk : k = k''
    · subst hk
      simp [aupdate, alookup, h]
    · by_cases hk' : k' = k'' <;> simp [aupdate, alookup, hk, hk', ih]

theorem alookup_aupdate_self {α : Type} {k : String} (f : α → α) (l : List (String × α)) :
    alookup k (aupdate k f l) = (alookup k l).map f := by
  induction l with
  | nil => simp [aupdate, alookup]
  | cons hd tl ih =>
    obtain ⟨k'', v⟩ := hd
    by_cases hk : k = k'' <;> simp [aupdate, alookup, hk, ih]

theorem akeys_aupdate {α : Type} (k : String) (f : α → α) (l : List (String × α)) :
    akeys (aupdate k f l) = akeys l := by
  induction l with
  | nil => simp [aupdate]
  | cons hd tl ih =>
    obtain ⟨k'', v⟩ := hd
    by_cases hk : k = k''
    · simp [aupdate, akeys, hk]
    · simp only [aupdate, if_neg hk, akeys, List.map_cons]
      rw [show (aupdate k f tl).map Prod.fst = akeys (aupdate k f tl) from rfl, ih]
      rfl

/-! ### Store lemmas -/

theorem clipStore_frame {s : Store} {ps : List Nat} {t : ℚ} {pid : Nat}
    (h : pid ∉ ps) : clipStore s ps t pid = s pid := by
  simp [clipStore, h]

theorem clipStore_gradVec (s : Store) (ps : List Nat) (t : ℚ) (pid : Nat) :
    (clipStore s ps t pid).gradVec = (s pid).gradVec := by
  unfold clipStore
  by_cases h : pid ∈ ps ∧ ((s pid).gradVec).isSome <;> simp [h]

theorem zeroGradOpt_frame {s : Store} {opt : TorchOptimizer} {pid : Nat}
    (h : ∀ ps ∈ opt.param_groups, pid ∉ ps) : zeroGradOpt s opt pid = s pid := by
  unfold zeroGradOpt
  have : opt.param_groups.any (fun ps => decide (pid ∈ ps)) = false := by
    simp only [List.any_eq_false, decide_eq_true_eq]
    intro ps hps
    exact h ps hps
  simp [this]

theorem groupNormSq_congr {s₁ s₂ : Store} {ps : List Nat}
    (h : ∀ pid ∈ ps, s₁ pid = s₂ pid) : groupNormSq s₁ ps = groupNormSq s₂ ps := by
  unfold groupNormSq
  congr 1
  exact List.map_congr_left fun pid hm => by rw [h pid hm]

theorem clipCoefSq_nonneg (t nsq : ℚ) : 0 ≤ clipCoefSq t nsq := by
  unfold clipCoefSq
  by_cases h : nsq ≤ t ^ 2 <;> simp [h]
  · push_neg at h
    have h0 : (0 : ℚ) < nsq := lt_of_le_of_lt (sq_nonneg t) h
    positivity

theorem paramNormSq_clip (s : Store) (ps : List Nat) (t : ℚ) {pid : Nat} (h : pid ∈ ps) :
    paramNormSq (clipStore s ps t pid) =
      clipCoefSq t (groupNormSq s ps) * paramNormSq (s pid) := by
  unfold clipStore
  cases hv : (s pid).gradVec with
  | none => simp [paramNormSq, h, hv]
  | some v =>
    simp only [h, hv, Option.isSome_some, and_true, if_true, true_and]
    simp [paramNormSq, hv]
    ring

theorem groupNormSq_clip (s : Store) (ps : List Nat) (t : ℚ) :
    groupNormSq (clipStore s ps t) ps = clipCoefSq t (groupNormSq s ps) * groupNormSq s ps := by
  conv_lhs => unfold groupNormSq
  rw [List.map_congr_left (fun pid h => paramNormSq_clip s ps t h),
      List.sum_map_mul_left]
  rfl

theorem groupNormSq_clip_le (s : Store) (ps : List Nat) (t : ℚ) :
    groupNormSq (clipStore s ps t) ps ≤ t ^ 2 := by
  rw [groupNormSq_clip]
  unfold clipCoefSq
  by_cases h : groupNormSq s ps ≤ t ^ 2
  · simp [h]
  · push_neg at h
    have h0 : (0 : ℚ) < groupNormSq s ps := lt_of_le_of_lt (sq_nonneg t) h
    simp only [not_le.mpr h, if_false]
    rw [div_mul_cancel₀ _ (ne_of_gt h0)]

/-! ### Concrete fixtures used by witnesses and counterexamples -/

/-- The default `OptimizerConfig()` of the source: Adam, `lr=5e-4`,
`eps=1e-8`, no `max_norm`, no `weight_decay` field. -/
def baseOptCfg : OptimizerConfig :=
  { target := .adam, lr := 1/2000, eps := 1/10^8, max_norm := none, weight_decay := none }

/-- The default `OptimizerConfig` with gradient clipping at `max_norm=1`. -/
def clipOptCfg : OptimizerConfig :=
  { target := .adam, lr := 1/2000, eps := 1/10^8, max_norm := some 1, weight_decay := none }

/-- A spec-valid config entry with an optimizer and `"scheduler": None`. -/
def entryA : ConfigEntry := { optimizer := some baseOptCfg, scheduler := some none }

/-- A spec-valid config entry with an optimizer, clipping, and
`"scheduler": None`. -/
def entryClip : ConfigEntry := { optimizer := some clipOptCfg, scheduler := some none }

/-- A spec-valid config entry with an optimizer and an exponential-decay
scheduler config. -/
def entrySched : ConfigEntry :=
  { optimizer := some baseOptCfg,
    scheduler := some (some { lr_final := 1/10000, max_steps := 30000 }) }

/-- A config entry whose dict carries only the `"optimizer"` key — the
`"scheduler"` key is absent. -/
def entryNoSchedKey : ConfigEntry := { optimizer := some baseOptCfg, scheduler := none }

/-- A heap where no parameter carries a gradient. -/
def storeNone : Store := fun _ => { gradVec := none, gradScaleSq := 1 }

/-- A heap where every parameter carries the gradient vector `[3, 4]`
(joint L2 norm 5 for a one-parameter group). -/
def storeGrad : Store := fun _ => { gradVec := some [3, 4], gradScaleSq := 1 }

/-! ### Construction: the missing-group error (C1) -/

/-- A spec-valid configuration entry: it carries both the `"optimizer"` and
the `"scheduler"` key (the `"scheduler"` value may still be `None`), as the
spec's configuration-input contract describes. -/
def entryWF (e : ConfigEntry) : Prop :=
  (e.optimizer).isSome ∧ (e.scheduler).isSome

instance (e : ConfigEntry) : Decidable (entryWF e) := by
  unfold entryWF; infer_instance

theorem entryWF_cameraOptDefault : entryWF cameraOptDefaultEntry := by
  constructor <;> rfl

theorem initLoop_missing (params : List (String × List Nat)) :
    ∀ (acc : Optimizers) (w : Nat),
      (∀ p ∈ acc.config, entryWF p.2) →
      (∃ g, g ∈ akeys params ∧ g ≠ "camera_opt" ∧ alookup g acc.config = none) →
      ∃ g ks, (initLoop params acc w).err = some (.runtimeError g ks) ∧
        g ∈ akeys params ∧ g ≠ "camera_opt" ∧ alookup g acc.config = none ∧
        ∀ k ∈ akeys acc.config, k ∈ ks := by
  induction params with
  | nil =>
    intro acc w _ hmiss
    obtain ⟨g, hg, _, _⟩ := hmiss
    simp [akeys] at hg
  | cons hd rest ih =>
    obtain ⟨g, ps⟩ := hd
    intro acc w hwf hmiss
    by_cases htrig : g = "camera_opt" ∧ alookup "camera_opt" acc.config = none
    · -- the legacy default entry is inserted, then the head group is found and processed
      have hnone := htrig.2
      have hfind : alookup g (acc.config ++ [("camera_opt", cameraOptDefaultEntry)])
          = some cameraOptDefaultEntry := by
        rw [htrig.1, alookup_append_right _ hnone]; simp [alookup]
      obtain ⟨g', hg', hne', hl'⟩ := hmiss
      have hg'rest : g' ∈ akeys rest := by
        rcases (by simpa [akeys] using hg' : g' = g ∨ g' ∈ akeys rest) with h | h
        · rw [htrig.1] at h; exact absurd h hne'
        · exact h
      have hl'ext : alookup g' (acc.config ++ [("camera_opt", cameraOptDefaultEntry)]) = none := by
        rw [alookup_append_right _ hl']; simp [alookup, hne']
      simp only [initLoop, if_pos htrig, hfind]
      simp only [cameraOptDefaultEntry]
      have h1 : ∀ p ∈ acc.config ++ [("camera_opt", cameraOptDefaultEntry)], entryWF p.2 := by
        intro p hp
        rcases List.mem_append.mp hp with h | h
        · exact hwf p h
        · simp at h
          rw [h]
          exact entryWF_cameraOptDefault
      obtain ⟨g'', ks, herr, hg'', hne'', hl'', hks⟩ := ih
        { config := acc.config ++ [("camera_opt", cameraOptDefaultEntry)],
          optimizers := acc.optimizers ++ [(g, OptimizerConfig.setup
            { target := .adam, lr := 1/1000, eps := 1/10^15,
              max_norm := none, weight_decay := some 0 } ps)],
          schedulers := acc.schedulers ++ [(g,
            { cfg := { lr_final := 1/10000, max_steps := 30000 }, lr_init := 1/1000,
              stepCount := 0, internalState := 0 })],
          parameters := acc.parameters ++ [(g, ps)] } (w + 1)
        h1 ⟨g', hg'rest, hne', hl'ext⟩
      refine ⟨g'', ks, herr, List.mem_cons_of_mem _ hg'', hne'', ?_, ?_⟩
      · have := hl''
        simp only at this
        cases hacc : alookup g'' acc.config with
        | none => rfl
        | some v => rw [alookup_append_left _ hacc] at this; exact absurd this (by simp)
      · intro k hk
        exact hks k (by simp only [akeys_append]; exact List.mem_append_left _ hk)
    · -- no legacy insertion
      simp only [initLoop, if_neg htrig]
      cases hl : alookup g acc.config with
      | none =>
        have hne : g ≠ "camera_opt" := fun hco => htrig ⟨hco, hco ▸ hl⟩
        exact ⟨g, akeys acc.config, by simp [hl], by simp [akeys], hne, hl, fun k hk => hk⟩
      | some entry =>
        have hwfe : entryWF entry := hwf _ (alookup_mem hl)
        obtain ⟨ocfg, ho⟩ := Option.isSome_iff_exists.mp hwfe.1
        obtain ⟨sval, hs⟩ := Option.isSome_iff_exists.mp hwfe.2
        obtain ⟨g', hg', hne', hl'⟩ := hmiss
        have hg'rest : g' ∈ akeys rest := by
          rcases (by simpa [akeys] using hg' : g' = g ∨ g' ∈ akeys rest) with h | h
          · rw [h] at hl'; rw [hl'] at hl; exact absurd hl (by simp)
          · exact h
        cases sval with
        | none =>
          simp only [hl, ho, hs]
          obtain ⟨g'', ks, herr, hg'', hne'', hl'', hks⟩ := ih
            { config := acc.config,
              optimizers := acc.optimizers ++ [(g, ocfg.setup ps)],
              schedulers := acc.schedulers,
              parameters := acc.parameters ++ [(g, ps)] } w
            (fun p hp => hwf p hp) ⟨g', hg'rest, hne', hl'⟩
          exact ⟨g'', ks, herr, List.mem_cons_of_mem _ hg'', hne'', hl'', hks⟩
        | some scfg =>
          simp only [hl, ho, hs]
          obtain ⟨g'', ks, herr, hg'', hne'', hl'', hks⟩ := ih
            { config := acc.config,
              optimizers := acc.optimizers ++ [(g, ocfg.setup ps)],
              schedulers := acc.schedulers ++ [(g,
                { cfg := scfg, lr_init := ocfg.lr, stepCount := 0, internalState := 0 })],
              parameters := acc.parameters ++ [(g, ps)] } w
            (fun p hp => hwf p hp) ⟨g', hg'rest, hne', hl'⟩
          exact ⟨g'', ks, herr, List.mem_cons_of_mem _ hg'', hne'', hl'', hks⟩

theorem initLoop_noSchedKey (params : List (String × List Nat)) :
    ∀ (acc : Optimizers) (w : Nat),
      (∀ g ∈ akeys params, alookup g acc.config ≠ none ∨ g = "camera_opt") →
      (∀ p ∈ acc.config, (p.2.optimizer).isSome) →
      (∃ g, g ∈ akeys params ∧ ∃ e, alookup g acc.config = some e ∧ e.scheduler = none) →
      (initLoop params acc w).err = some (.keyError "scheduler") := by
  induction params with
  | nil =>
    intro acc w _ _ hmiss
    obtain ⟨g, hg, _⟩ := hmiss
    simp [akeys] at hg
  | cons hd rest ih =>
    obtain ⟨g, ps⟩ := hd
    intro acc w hcov hopt hmiss
    by_cases htrig : g = "camera_opt" ∧ alookup "camera_opt" acc.config = none
    · have hnone := htrig.2
      have hfind : alookup g (acc.config ++ [("camera_opt", cameraOptDefaultEntry)])
          = some cameraOptDefaultEntry := by
        rw [htrig.1, alookup_append_right _ hnone]; simp [alookup]
      simp only [initLoop, if_pos htrig, hfind]
      simp only [cameraOptDefaultEntry]
      obtain ⟨g0, hg0, e, hle, hsched⟩ := hmiss
      have hg0ne : g0 ≠ "camera_opt" := by
        intro h
        rw [h, hnone] at hle
        exact absurd hle (by simp)
      have hg0rest : g0 ∈ akeys rest := by
        rcases (by simpa [akeys] using hg0 : g0 = g ∨ g0 ∈ akeys rest) with h | h
        · exact absurd (h.trans htrig.1) hg0ne
        · exact h
      apply ih
      · intro g' hg'
        rcases hcov g' (by simp [akeys]; right; simpa [akeys] using hg') with h | h
        · left
          cases hx : alookup g' acc.config with
          | none => exact absurd hx h
          | some v => rw [alookup_append_left _ hx]; simp
        · right; exact h
      · intro p hp
        rcases List.mem_append.mp hp with h | h
        · exact hopt p h
        · simp at h
          rw [h]
          rfl
      · exact ⟨g0, hg0rest, e, alookup_append_left _ hle, hsched⟩
    · simp only [initLoop, if_neg htrig]
      cases hl : alookup g acc.config with
      | none =>
        exfalso
        rcases hcov g (by simp [akeys]) with h | h
        · exact h hl
        · exact htrig ⟨h, h ▸ hl⟩
      | some entry =>
        have hosome : (entry.optimizer).isSome := hopt _ (alookup_mem hl)
        obtain ⟨ocfg, ho⟩ := Option.isSome_iff_exists.mp hosome
        cases hsv : entry.scheduler with
        | none => simp [hl, ho, hsv]
        | some sval =>
          obtain ⟨g0, hg0, e, hle, hsched⟩ := hmiss
          have hg0rest : g0 ∈ akeys rest := by
            rcases (by simpa [akeys] using hg0 : g0 = g ∨ g0 ∈ akeys rest) with h | h
            · subst h
              rw [hle] at hl
              cases hl
              rw [hsched] at hsv
              cases hsv
            · exact h
          cases sval with
          | none =>
            simp only [hl, ho, hsv]
            exact ih
              { config := acc.config,
                optimizers := acc.optimizers ++ [(g, ocfg.setup ps)],
                schedulers := acc.schedulers,
                parameters := acc.parameters ++ [(g, ps)] } w
              (fun g' hg' => hcov g' (by simp [akeys]; right; simpa [akeys] using hg'))
              (fun p hp => hopt p hp) ⟨g0, hg0rest, e, hle, hsched⟩
          | some scfg =>
            simp only [hl, ho, hsv]
            exact ih
              { config := acc.config,
                optimizers := acc.optimizers ++ [(g, ocfg.setup ps)],
                schedulers := acc.schedulers ++ [(g,
                  { cfg := scfg, lr_init := ocfg.lr, stepCount := 0, internalState := 0 })],
                parameters := acc.parameters ++ [(g, ps)] } w
              (fun g' hg' => hcov g' (by simp [akeys]; right; simpa [akeys] using hg'))
              (fun p hp => hopt p hp) ⟨g0, hg0rest, e, hle, hsched⟩

/-- C10: for every construction input in which every parameter group is
covered by the configuration (or is the legacy `camera_opt` group) and every
configuration entry carries the `"optimizer"` key, if some parameter group's
configuration entry omits the `"scheduler"` key, construction fails with the
`KeyError` for `"scheduler"` — an optimizer-only group is never produced. -/
theorem C10_scheduler_key_required (config : List (String × ConfigEntry))
    (params : List (String × List Nat))
    (hcov : ∀ g ∈ akeys params, alookup g config ≠ none ∨ g = "camera_opt")
    (hopt : ∀ p ∈ config, (p.2.optimizer).isSome)
    (hmiss : ∃ g, g ∈ akeys params ∧ ∃ e, alookup g config = some e ∧ e.scheduler = none) :
    (Optimizers.init config params).err = some (.keyError "scheduler") :=
  initLoop_noSchedKey params _ 0 hcov hopt hmiss

/-- Witness for C10 at a concrete input: group `"g"` is configured with an
optimizer but its entry has no `"scheduler"` key. -/
theorem C10_scheduler_key_required_witness :
    (∀ g ∈ akeys [("g", ([0] : List Nat))],
      alookup g [("g", entryNoSchedKey)] ≠ none ∨ g = "camera_opt") ∧
    (∀ p ∈ [("g", entryNoSchedKey)], (p.2.optimizer).isSome) ∧
    (∃ g, g ∈ akeys [("g", ([0] : List Nat))] ∧
      ∃ e, alookup g [("g", entryNoSchedKey)] = some e ∧ e.scheduler = none) ∧
    (Optimizers.init [("g", entryNoSchedKey)] [("g", [0])]).err
      = some (.keyError "scheduler") :=
  ⟨by decide, by decide, by decide,
    C10_scheduler_key_required _ _ (by decide) (by decide) (by decide)⟩

/-! ### Construction: success and the legacy `camera_opt` default (C2) -/

theorem initLoop_allWF (params : List (String × List Nat)) :
    ∀ (acc : Optimizers) (w : Nat),
      (∀ g ∈ akeys params, ∃ e, alookup g acc.config = some e ∧ entryWF e) →
      (initLoop params acc w).err = none ∧
      (initLoop params acc w).warnings = w ∧
      (initLoop params acc w).coord.config = acc.config ∧
      (∀ k v, alookup k acc.optimizers = some v →
        alookup k (initLoop params acc w).coord.optimizers = some v) ∧
      (∀ k v, alookup k acc.schedulers = some v →
        alookup k (initLoop params acc w).coord.schedulers = some v) := by
  induction params with
  | nil =>
    intro acc w _
    exact ⟨rfl, rfl, rfl, fun k v h => h, fun k v h => h⟩
  | cons hd rest ih =>
    obtain ⟨g, ps⟩ := hd
    intro acc w hcov
    obtain ⟨e, hl, hwfe⟩ := hcov g (by simp [akeys])
    have htrig : ¬(g = "camera_opt" ∧ alookup "camera_opt" acc.config = none) := by
      intro h
      rw [h.1, h.2] at hl
      exact absurd hl (by simp)
    obtain ⟨ocfg, ho⟩ := Option.isSome_iff_exists.mp hwfe.1
    obtain ⟨sval, hs⟩ := Option.isSome_iff_exists.mp hwfe.2
    have hcov' : ∀ g' ∈ akeys rest, ∃ e', alookup g' acc.config = some e' ∧ entryWF e' :=
      fun g' hg' => hcov g' (by simp [akeys]; right; simpa [akeys] using hg')
    cases sval with
    | none =>
      simp only [initLoop, if_neg htrig, hl, ho, hs]
      obtain ⟨h1, h2, h3, h4, h5⟩ := ih
        { config := acc.config,
          optimizers := acc.optimizers ++ [(g, ocfg.setup ps)],
          schedulers := acc.schedulers,
          parameters := acc.parameters ++ [(g, ps)] } w hcov'
      exact ⟨h1, h2, h3,
        fun k v h => h4 k v (alookup_append_left _ h),
        fun k v h => h5 k v h⟩
    | some scfg =>
      simp only [initLoop, if_neg htrig, hl, ho, hs]
      obtain ⟨h1, h2, h3, h4, h5⟩ := ih
        { config := acc.config,
          optimizers := acc.optimizers ++ [(g, ocfg.setup ps)],
          schedulers := acc.schedulers ++ [(g,
            { cfg := scfg, lr_init := ocfg.lr, stepCount := 0, internalState := 0 })],
          parameters := acc.parameters ++ [(g, ps)] } w hcov'
      exact ⟨h1, h2, h3,
        fun k v h => h4 k v (alookup_append_left _ h),
        fun k v h => h5 k v (alookup_append_left _ h)⟩

theorem initLoop_legacy (params : List (String × List Nat)) :
    ∀ (acc : Optimizers) (w : Nat),
      (akeys params).Nodup →
      "camera_opt" ∈ akeys params →
      alookup "camera_opt" acc.config = none →
      (∀ g ∈ akeys params, g ≠ "camera_opt" →
        ∃ e, alookup g acc.config = some e ∧ entryWF e) →
      alookup "camera_opt" acc.optimizers = none →
      alookup "camera_opt" acc.schedulers = none →
      (initLoop params acc w).err = none ∧
      (initLoop params acc w).warnings = w + 1 ∧
      alookup "camera_opt" (initLoop params acc w).coord.config
        = some cameraOptDefaultEntry ∧
      (∃ opt, alookup "camera_opt" (initLoop params acc w).coord.optimizers = some opt ∧
        opt.algo = .adam ∧ opt.lr = 1/1000 ∧ opt.eps = 1/10^15 ∧
        opt.weight_decay = some 0) ∧
      (∃ sch, alookup "camera_opt" (initLoop params acc w).coord.schedulers = some sch ∧
        sch.cfg.lr_final = 1/10000 ∧ sch.cfg.max_steps = 30000 ∧ sch.lr_init = 1/1000) := by
  induction params with
  | nil =>
    intro acc w _ hco _ _ _ _
    simp [akeys] at hco
  | cons hd rest ih =>
    obtain ⟨g, ps⟩ := hd
    intro acc w hnd hco hnone hcov hopts hscheds
    by_cases hgco : g = "camera_opt"
    · -- the head is the legacy group: insert the default and process it
      have htrig : g = "camera_opt" ∧ alookup "camera_opt" acc.config = none := ⟨hgco, hnone⟩
      have hfind : alookup g (acc.config ++ [("camera_opt", cameraOptDefaultEntry)])
          = some cameraOptDefaultEntry := by
        rw [hgco, alookup_append_right _ hnone]; simp [alookup]
      have hnotin : "camera_opt" ∉ akeys rest := by
        have h := hnd
        simp only [akeys, List.map_cons] at h
        exact hgco ▸ (List.nodup_cons.mp h).1
      simp only [initLoop, if_pos htrig, hfind]
      simp only [cameraOptDefaultEntry]
      obtain ⟨h1, h2, h3, h4, h5⟩ := initLoop_allWF rest
        { config := acc.config ++ [("camera_opt", cameraOptDefaultEntry)],
          optimizers := acc.optimizers ++ [(g, OptimizerConfig.setup
            { target := .adam, lr := 1/1000, eps := 1/10^15,
              max_norm := none, weight_decay := some 0 } ps)],
          schedulers := acc.schedulers ++ [(g,
            { cfg := { lr_final := 1/10000, max_steps := 30000 }, lr_init := 1/1000,
              stepCount := 0, internalState := 0 })],
          parameters := acc.parameters ++ [(g, ps)] } (w + 1)
        (by
          intro g' hg'
          have hne : g' ≠ "camera_opt" := fun h => hnotin (h ▸ hg')
          obtain ⟨e, hle, hwfe⟩ := hcov g'
            (by simp [akeys]; right; simpa [akeys] using hg') hne
          exact ⟨e, alookup_append_left _ hle, hwfe⟩)
      refine ⟨h1, h2, ?_, ?_, ?_⟩
      · have hfind' : alookup "camera_opt"
            (acc.config ++ [("camera_opt", cameraOptDefaultEntry)])
            = some cameraOptDefaultEntry := by
          rw [alookup_append_right _ hnone]; simp [alookup]
        exact (congrArg (alookup "camera_opt") h3).trans hfind'
      · have hx : alookup "camera_opt"
            (acc.optimizers ++ [(g, OptimizerConfig.setup
              { target := .adam, lr := 1/1000, eps := 1/10^15,
                max_norm := none, weight_decay := some 0 } ps)])
            = some (OptimizerConfig.setup
              { target := .adam, lr := 1/1000, eps := 1/10^15,
                max_norm := none, weight_decay := some 0 } ps) := by
          rw [alookup_append_right _ hopts, hgco]
          simp [alookup]
        exact ⟨_, h4 "camera_opt" _ hx, rfl, rfl, rfl, rfl⟩
      · have hx : alookup "camera_opt"
            (acc.schedulers ++ [(g, Scheduler.mk
              { lr_final := 1/10000, max_steps := 30000 } (1/1000) 0 0)])
            = some (Scheduler.mk
              { lr_final := 1/10000, max_steps := 30000 } (1/1000) 0 0) := by
          rw [alookup_append_right _ hscheds, hgco]
          simp [alookup]
        exact ⟨_, h5 "camera_opt" _ hx, rfl, rfl, rfl⟩
    · -- a non-legacy head group: process it and recurse
      have htrig : ¬(g = "camera_opt" ∧ alookup "camera_opt" acc.config = none) :=
        fun h => hgco h.1
      obtain ⟨e, hl, hwfe⟩ := hcov g (by simp [akeys]) hgco
      obtain ⟨ocfg, ho⟩ := Option.isSome_iff_exists.mp hwfe.1
      obtain ⟨sval, hs⟩ := Option.isSome_iff_exists.mp hwfe.2
      have hnd' : (akeys rest).Nodup := by
        have := hnd
        simp only [akeys, List.map_cons] at this
        exact ((List.nodup_cons.mp this).2 : (rest.map Prod.fst).Nodup)
      have hco' : "camera_opt" ∈ akeys rest := by
        rcases (by simpa [akeys] using hco : "camera_opt" = g ∨ "camera_opt" ∈ akeys rest)
          with h | h
        · exact absurd h.symm hgco
        · exact h
      have hcov' : ∀ g' ∈ akeys rest, g' ≠ "camera_opt" →
          ∃ e', alookup g' acc.config = some e' ∧ entryWF e' :=
        fun g' hg' hne => hcov g' (by simp [akeys]; right; simpa [akeys] using hg') hne
      have hneco : "camera_opt" ≠ g := fun h => hgco h.symm
      cases sval with
      | none =>
        simp only [initLoop, if_neg htrig, hl, ho, hs]
        exact ih
          { config := acc.config,
            optimizers := acc.optimizers ++ [(g, ocfg.setup ps)],
            schedulers := acc.schedulers,
            parameters := acc.parameters ++ [(g, ps)] } w
          hnd' hco' hnone hcov'
          (by rw [alookup_append_ne _ _ hneco]; exact hopts) hscheds
      | some scfg =>
        simp only [initLoop, if_neg htrig, hl, ho, hs]
        exact ih
          { config := acc.config,
            optimizers := acc.optimizers ++ [(g, ocfg.setup ps)],
            schedulers := acc.schedulers ++ [(g,
              { cfg := scfg, lr_init := ocfg.lr, stepCount := 0, internalState := 0 })],
            parameters := acc.parameters ++ [(g, ps)] } w
          hnd' hco' hnone hcov'
          (by rw [alookup_append_ne _ _ hneco]; exact hopts)
          (by rw [alookup_append_ne _ _ hneco]; exact hscheds)

/-- C2 counterexample: a construction input whose parameter mapping contains
`camera_opt` with no matching configuration entry, on which construction
raises the missing-group configuration error (for the other unconfigured
group `"x"`) instead of succeeding — refuting the claim as universally
stated. -/
theorem C2_counterexample :
    "camera_opt" ∈ akeys [("x", ([] : List Nat)), ("camera_opt", [])] ∧
    alookup "camera_opt" ([] : List (String × ConfigEntry)) = none ∧
    (Optimizers.init [] [("x", []), ("camera_opt", [])]).err
      = some (.runtimeError "x" []) := by
  decide

/-- C2 (amended): if the parameter mapping contains `camera_opt` with no
matching configuration entry and every *other* parameter group has a
spec-valid configuration entry, construction succeeds, synthesizes the
default configuration for `camera_opt` — an Adam optimizer with initial
learning rate 1e-3 (and eps 1e-15, weight decay 0) plus an
exponential-decay schedule to terminal rate 1e-4 over 30000 steps — and
emits exactly one deprecation warning instead of raising a configuration
error. -/
theorem C2_camera_opt_default (config : List (String × ConfigEntry))
    (params : List (String × List Nat))
    (hnd : (akeys params).Nodup)
    (hco : "camera_opt" ∈ akeys params)
    (hnone : alookup "camera_opt" config = none)
    (hcov : ∀ g ∈ akeys params, g ≠ "camera_opt" →
      ∃ e, alookup g config = some e ∧ entryWF e) :
    (Optimizers.init config params).err = none ∧
    (Optimizers.init config params).warnings = 1 ∧
    alookup "camera_opt" (Optimizers.init config params).coord.config
      = some cameraOptDefaultEntry ∧
    (∃ opt, alookup "camera_opt" (Optimizers.init config params).coord.optimizers
      = some opt ∧ opt.algo = .adam ∧ opt.lr = 1/1000 ∧ opt.eps = 1/10^15 ∧
      opt.weight_decay = some 0) ∧
    (∃ sch, alookup "camera_opt" (Optimizers.init config params).coord.schedulers
      = some sch ∧ sch.cfg.lr_final = 1/10000 ∧ sch.cfg.max_steps = 30000 ∧
      sch.lr_init = 1/1000) :=
  initLoop_legacy params _ 0 hnd hco hnone hcov rfl rfl

/-- Witness for the amended C2 at a concrete input: group `"a"` is
configured, `camera_opt` appears only in the parameter mapping. -/
theorem C2_camera_opt_default_witness :
    (akeys [("a", ([0] : List Nat)), ("camera_opt", [1])]).Nodup ∧
    "camera_opt" ∈ akeys [("a", ([0] : List Nat)), ("camera_opt", [1])] ∧
    alookup "camera_opt" [("a", entryA)] = none ∧
    ((Optimizers.init [("a", entryA)] [("a", [0]), ("camera_opt", [1])]).err = none ∧
     (Optimizers.init [("a", entryA)] [("a", [0]), ("camera_opt", [1])]).warnings = 1 ∧
     alookup "camera_opt"
       (Optimizers.init [("a", entryA)] [("a", [0]), ("camera_opt", [1])]).coord.config
       = some cameraOptDefaultEntry ∧
     (∃ opt, alookup "camera_opt"
        (Optimizers.init [("a", entryA)] [("a", [0]), ("camera_opt", [1])]).coord.optimizers
        = some opt ∧ opt.algo = .adam ∧ opt.lr = 1/1000 ∧ opt.eps = 1/10^15 ∧
        opt.weight_decay = some 0) ∧
     (∃ sch, alookup "camera_opt"
        (Optimizers.init [("a", entryA)] [("a", [0]), ("camera_opt", [1])]).coord.schedulers
        = some sch ∧ sch.cfg.lr_final = 1/10000 ∧ sch.cfg.max_steps = 30000 ∧
        sch.lr_init = 1/1000)) :=
  ⟨by decide, by decide, by decide,
    C2_camera_opt_default _ _ (by decide) (by decide) (by decide) (by decide)⟩

/-! ### Construction: mutation of the caller's configuration mapping (C9) -/

theorem initLoop_config_stable (params : List (String × List Nat)) :
    ∀ (acc : Optimizers) (w : Nat),
      ("camera_opt" ∉ akeys params ∨ alookup "camera_opt" acc.config ≠ none) →
      (initLoop params acc w).coord.config = acc.config := by
  induction params with
  | nil => intro acc w _; rfl
  | cons hd rest ih =>
    obtain ⟨g, ps⟩ := hd
    intro acc w h
    have htrig : ¬(g = "camera_opt" ∧ alookup "camera_opt" acc.config = none) := by
      rintro ⟨h1, h2⟩
      rcases h with h | h
      · exact h (by simp [akeys, h1])
      · exact h h2
    have h' : "camera_opt" ∉ akeys rest ∨ alookup "camera_opt" acc.config ≠ none := by
      rcases h with h | h
      · exact Or.inl (fun hx => h (by simp [akeys]; right; simpa [akeys] using hx))
      · exact Or.inr h
    simp only [initLoop, if_neg htrig]
    cases hl : alookup g acc.config with
    | none => simp [hl]
    | some entry =>
      cases ho : entry.optimizer with
      | none => simp [hl, ho]
      | some ocfg =>
        cases hs : entry.scheduler with
        | none => simp [hl, ho, hs]
        | some sval =>
          cases sval with
          | none =>
            simp only [hl, ho, hs]
            exact ih
              { config := acc.config,
                optimizers := acc.optimizers ++ [(g, ocfg.setup ps)],
                schedulers := acc.schedulers,
                parameters := acc.parameters ++ [(g, ps)] } w h'
          | some scfg =>
            simp only [hl, ho, hs]
            exact ih
              { config := acc.config,
                optimizers := acc.optimizers ++ [(g, ocfg.setup ps)],
                schedulers := acc.schedulers ++ [(g,
                  { cfg := scfg, lr_init := ocfg.lr, stepCount := 0, internalState := 0 })],
                parameters := acc.parameters ++ [(g, ps)] } w h'

theorem initLoop_config_legacy (params : List (String × List Nat)) :
    ∀ (acc : Optimizers) (w : Nat),
      "camera_opt" ∈ akeys params →
      alookup "camera_opt" acc.config = none →
      ((initLoop params acc w).coord.config = acc.config ∧
        (initLoop params acc w).err ≠ none) ∨
      (initLoop params acc w).coord.config
        = acc.config ++ [("camera_opt", cameraOptDefaultEntry)] := by
  induction params with
  | nil =>
    intro acc w hco _
    simp [akeys] at hco
  | cons hd rest ih =>
    obtain ⟨g, ps⟩ := hd
    intro acc w hco hnone
    by_cases hgco : g = "camera_opt"
    · have htrig : g = "camera_opt" ∧ alookup "camera_opt" acc.config = none := ⟨hgco, hnone⟩
      have hfind : alookup g (acc.config ++ [("camera_opt", cameraOptDefaultEntry)])
          = some cameraOptDefaultEntry := by
        rw [hgco, alookup_append_right _ hnone]; simp [alookup]
      simp only [initLoop, if_pos htrig, hfind]
      simp only [cameraOptDefaultEntry]
      right
      exact initLoop_config_stable rest
        { config := acc.config ++ [("camera_opt", cameraOptDefaultEntry)],
          optimizers := acc.optimizers ++ [(g, OptimizerConfig.setup
            { target := .adam, lr := 1/1000, eps := 1/10^15,
              max_norm := none, weight_decay := some 0 } ps)],
          schedulers := acc.schedulers ++ [(g,
            { cfg := { lr_final := 1/10000, max_steps := 30000 }, lr_init := 1/1000,
              stepCount := 0, internalState := 0 })],
          parameters := acc.parameters ++ [(g, ps)] } (w + 1)
        (Or.inr (by
          rw [alookup_append_right _ hnone]
          simp [alookup]))
    · have htrig : ¬(g = "camera_opt" ∧ alookup "camera_opt" acc.config = none) :=
        fun h => hgco h.1
      have hco' : "camera_opt" ∈ akeys rest := by
        rcases (by simpa [akeys] using hco : "camera_opt" = g ∨ "camera_opt" ∈ akeys rest)
          with h | h
        · exact absurd h.symm hgco
        · exact h
      simp only [initLoop, if_neg htrig]
      cases hl : alookup g acc.config with
      | none => simp only [hl]; exact Or.inl ⟨by trivial, by simp⟩
      | some entry =>
        cases ho : entry.optimizer with
        | none => simp only [hl, ho]; exact Or.inl ⟨by trivial, by simp⟩
        | some ocfg =>
          cases hs : entry.scheduler with
          | none => simp only [hl, ho, hs]; exact Or.inl ⟨by trivial, by simp⟩
          | some sval =>
            cases sval with
            | none =>
              simp only [hl, ho, hs]
              exact ih
                { config := acc.config,
                  optimizers := acc.optimizers ++ [(g, ocfg.setup ps)],
                  schedulers := acc.schedulers,
                  parameters := acc.parameters ++ [(g, ps)] } w hco' hnone
            | some scfg =>
              simp only [hl, ho, hs]
              exact ih
                { config := acc.config,
                  optimizers := acc.optimizers ++ [(g, ocfg.setup ps)],
                  schedulers := acc.schedulers ++ [(g,
                    { cfg := scfg, lr_init := ocfg.lr, stepCount := 0, internalState := 0 })],
                  parameters := acc.parameters ++ [(g, ps)] } w hco' hnone

/-- C9: construction mutates the caller-supplied configuration mapping if
and only if it reaches the legacy `camera_opt` default path: when
`camera_opt` is absent from the parameter mapping or already configured, the
mapping is returned unchanged; when `camera_opt` is an unconfigured
parameter group, either construction aborted before reaching it (mapping
unchanged, with an error), or the mapping now differs from the input by
exactly the appended `camera_opt` default entry. -/
theorem C9_config_mutation (config : List (String × ConfigEntry))
    (params : List (String × List Nat)) :
    (("camera_opt" ∉ akeys params ∨ alookup "camera_opt" config ≠ none) →
      (Optimizers.init config params).coord.config = config) ∧
    ("camera_opt" ∈ akeys params → alookup "camera_opt" config = none →
      (((Optimizers.init config params).coord.config = config ∧
        (Optimizers.init config params).err ≠ none) ∨
       ((Optimizers.init config params).coord.config
          = config ++ [("camera_opt", cameraOptDefaultEntry)] ∧
        (Optimizers.init config params).coord.config ≠ config))) := by
  constructor
  · exact fun h => initLoop_config_stable params _ 0 h
  · intro h1 h2
    rcases initLoop_config_legacy params
      { config := config, optimizers := [], schedulers := [], parameters := [] } 0 h1 h2
      with h | h
    · exact Or.inl h
    · refine Or.inr ⟨h, ?_⟩
      show (initLoop params
        { config := config, optimizers := [], schedulers := [], parameters := [] } 0).coord.config
        ≠ config
      rw [h]
      intro hx
      have := congrArg List.length hx
      simp at this

/-- Witness for C9 at concrete inputs: an already-configured input is left
unchanged, and an input with an unconfigured `camera_opt` parameter group
comes back with the default entry appended. -/
theorem C9_config_mutation_witness :
    ("camera_opt" ∉ akeys [("a", ([0] : List Nat))] ∨
      alookup "camera_opt" [("a", entryA)] ≠ none) ∧
    (Optimizers.init [("a", entryA)] [("a", [0])]).coord.config = [("a", entryA)] ∧
    ("camera_opt" ∈ akeys [("camera_opt", ([1] : List Nat))] ∧
      alookup "camera_opt" ([] : List (String × ConfigEntry)) = none) ∧
    (((Optimizers.init [] [("camera_opt", [1])]).coord.config = [] ∧
      (Optimizers.init [] [("camera_opt", [1])]).err ≠ none) ∨
     ((Optimizers.init [] [("camera_opt", [1])]).coord.config
        = [] ++ [("camera_opt", cameraOptDefaultEntry)] ∧
      (Optimizers.init [] [("camera_opt", [1])]).coord.config ≠ [])) :=
  ⟨by decide, (C9_config_mutation [("a", entryA)] [("a", [0])]).1 (by decide),
    by decide, (C9_config_mutation [] [("camera_opt", [1])]).2 (by decide) (by decide)⟩

/-- C1: for every spec-valid construction input in which some parameter-group
name other than the legacy `camera_opt` group is present in the parameter
mapping but absent from the configuration mapping, construction raises the
fatal `RuntimeError` whose message names a missing (non-legacy,
unconfigured) group and lists every configured group name. -/
theorem C1_missing_group_fatal (config : List (String × ConfigEntry))
    (params : List (String × List Nat))
    (hwf : ∀ p ∈ config, entryWF p.2)
    (hmiss : ∃ g, g ∈ akeys params ∧ g ≠ "camera_opt" ∧ alookup g config = none) :
    ∃ g ks, (Optimizers.init config params).err = some (.runtimeError g ks) ∧
      g ∈ akeys params ∧ g ≠ "camera_opt" ∧ alookup g config = none ∧
      ∀ k ∈ akeys config, k ∈ ks :=
  initLoop_missing params _ 0 hwf hmiss

/-- Witness for C1 at a concrete input: config has only group `"a"`, the
parameter mapping adds the unconfigured group `"x"`. -/
theorem C1_missing_group_fatal_witness :
    (∀ p ∈ [("a", entryA)], entryWF p.2) ∧
    (∃ g, g ∈ akeys [("a", ([0] : List Nat)), ("x", [1])] ∧ g ≠ "camera_opt" ∧
      alookup g [("a", entryA)] = none) ∧
    (∃ g ks,
      (Optimizers.init [("a", entryA)] [("a", [0]), ("x", [1])]).err
        = some (.runtimeError g ks) ∧
      g ∈ akeys [("a", ([0] : List Nat)), ("x", [1])] ∧ g ≠ "camera_opt" ∧
      alookup g [("a", entryA)] = none ∧
      ∀ k ∈ akeys [("a", entryA)], k ∈ ks) :=
  ⟨by decide, by decide, C1_missing_group_fatal _ _ (by decide) (by decide)⟩

/-! ### Scheduler stepping without a scheduler (C5) -/

/-- C5: evaluating the code at the failing input.  Group `"g"` is configured
with `"scheduler": None`, so construction succeeds and builds no scheduler
for it — yet `scheduler_step("g")` raises `KeyError("g")` instead of being a
no-op, because the source tests for the presence of the `"scheduler"` *key*
in the group's config entry (always present after a successful
construction) and then indexes `self.schedulers`, where the group is
missing.  A group with a configured scheduler is advanced by one step. -/
theorem C5_scheduler_step_keyerror :
    (Optimizers.init [("g", entryA)] [("g", [0])]).err = none ∧
    alookup "g" (Optimizers.init [("g", entryA)] [("g", [0])]).coord.schedulers = none ∧
    ((Optimizers.init [("g", entryA)] [("g", [0])]).coord.scheduler_step "g").1
      = some (.keyError "g") ∧
    (Optimizers.init [("h", entrySched)] [("h", [0])]).err = none ∧
    ((Optimizers.init [("h", entrySched)] [("h", [0])]).coord.scheduler_step "h").1 = none ∧
    (alookup "h"
      ((Optimizers.init [("h", entrySched)] [("h", [0])]).coord.scheduler_step "h").2.schedulers).map
      Scheduler.stepCount = some 1 := by
  decide

/-! ### Checkpoint state loading (C7) -/

theorem alookup_aupdate_none {α : Type} (k k0 : String) (f : α → α) (l : List (String × α)) :
    alookup k (aupdate k0 f l) = none ↔ alookup k l = none := by
  by_cases h : k = k0
  · subst h
    rw [alookup_aupdate_self]
    simp
  · rw [alookup_aupdate_ne _ _ h]

theorem loadLoop_allKnown {α : Type} (upd : α → Nat → α) (loaded : List (String × Nat)) :
    ∀ m : List (String × α), (∀ k ∈ akeys loaded, alookup k m ≠ none) →
      (loadLoop upd loaded m).1 = none := by
  induction loaded with
  | nil => intro m _; rfl
  | cons hd rest ih =>
    obtain ⟨k, v⟩ := hd
    intro m hall
    cases hl : alookup k m with
    | none => exact absurd hl (hall k (by simp [akeys]))
    | some o =>
      simp only [loadLoop, hl]
      exact ih _ (fun k' hk' => by
        rw [Ne, alookup_aupdate_none]
        exact hall k' (by simp [akeys]; right; simpa [akeys] using hk'))

theorem loadLoop_unknown {α : Type} (upd : α → Nat → α) (loaded : List (String × Nat)) :
    ∀ m : List (String × α), (∃ k, k ∈ akeys loaded ∧ alookup k m = none) →
      ∃ k', (loadLoop upd loaded m).1 = some (.keyError k') ∧
        alookup k' m = none ∧ k' ∈ akeys loaded := by
  induction loaded with
  | nil =>
    intro m hex
    obtain ⟨k, hk, _⟩ := hex
    simp [akeys] at hk
  | cons hd rest ih =>
    obtain ⟨k, v⟩ := hd
    intro m hex
    cases hl : alookup k m with
    | none =>
      exact ⟨k, by simp [loadLoop, hl], hl, by simp [akeys]⟩
    | some o =>
      obtain ⟨k0, hk0, hl0⟩ := hex
      have hk0ne : k0 ≠ k := fun h => by rw [h, hl] at hl0; cases hl0
      have hk0rest : k0 ∈ akeys rest := by
        rcases (by simpa [akeys] using hk0 : k0 = k ∨ k0 ∈ akeys rest) with h | h
        · exact absurd h hk0ne
        · exact h
      simp only [loadLoop, hl]
      obtain ⟨k', h1, h2, h3⟩ := ih (aupdate k (fun o => upd o v) m)
        ⟨k0, hk0rest, by rw [alookup_aupdate_none]; exact hl0⟩
      exact ⟨k', h1, (alookup_aupdate_none k' k (fun o => upd o v) m).mp h2,
        List.mem_cons_of_mem _ h3⟩

theorem loadLoop_frame {α : Type} (upd : α → Nat → α) (loaded : List (String × Nat)) :
    ∀ (m : List (String × α)) (g : String), g ∉ akeys loaded →
      alookup g (loadLoop upd loaded m).2 = alookup g m := by
  induction loaded with
  | nil => intro m g _; rfl
  | cons hd rest ih =>
    obtain ⟨k, v⟩ := hd
    intro m g hg
    have hgne : g ≠ k := fun h => hg (by simp [akeys, h])
    have hgrest : g ∉ akeys rest := fun h => hg (by simp [akeys]; right; simpa [akeys] using h)
    cases hl : alookup k m with
    | none => simp [loadLoop, hl]
    | some o =>
      simp only [loadLoop, hl]
      rw [ih _ g hgrest, alookup_aupdate_ne _ _ hgne]

/-- C7 counterexample: a coordinator with the live group `"g"` accepts an
*empty* loaded state for both optimizers and schedulers without any error —
refuting the claim that a group present in the live coordinator but absent
from the loaded state is a fatal state-mismatch error. -/
theorem C7_counterexample :
    (Optimizers.init [("g", entrySched)] [("g", [0])]).err = none ∧
    "g" ∈ akeys (Optimizers.init [("g", entrySched)] [("g", [0])]).coord.optimizers ∧
    "g" ∈ akeys (Optimizers.init [("g", entrySched)] [("g", [0])]).coord.schedulers ∧
    ((Optimizers.init [("g", entrySched)] [("g", [0])]).coord.load_optimizers []).1 = none ∧
    ((Optimizers.init [("g", entrySched)] [("g", [0])]).coord.load_schedulers []).1 = none := by
  decide

/-- C7 (amended): loading checkpoint state raises a lookup error exactly
when the loaded state references a group name unknown to the live
coordinator (and the error names such a group); a live group absent from
the loaded state is *not* an error — it is silently skipped, its entry left
unchanged.  This holds for both optimizer and scheduler state. -/
theorem C7_load_state_mismatch (c : Optimizers) (loadedO loadedS : List (String × Nat)) :
    ((c.load_optimizers loadedO).1 = none ↔
      ∀ k ∈ akeys loadedO, alookup k c.optimizers ≠ none) ∧
    ((∃ k, k ∈ akeys loadedO ∧ alookup k c.optimizers = none) →
      ∃ k', (c.load_optimizers loadedO).1 = some (.keyError k') ∧
        alookup k' c.optimizers = none ∧ k' ∈ akeys loadedO) ∧
    (∀ g, g ∉ akeys loadedO →
      alookup g (c.load_optimizers loadedO).2.optimizers = alookup g c.optimizers) ∧
    ((c.load_schedulers loadedS).1 = none ↔
      ∀ k ∈ akeys loadedS, alookup k c.schedulers ≠ none) ∧
    ((∃ k, k ∈ akeys loadedS ∧ alookup k c.schedulers = none) →
      ∃ k', (c.load_schedulers loadedS).1 = some (.keyError k') ∧
        alookup k' c.schedulers = none ∧ k' ∈ akeys loadedS) ∧
    (∀ g, g ∉ akeys loadedS →
      alookup g (c.load_schedulers loadedS).2.schedulers = alookup g c.schedulers) := by
  refine ⟨⟨fun he => ?_, fun h => loadLoop_allKnown _ loadedO c.optimizers h⟩,
    fun h => loadLoop_unknown _ loadedO c.optimizers h,
    fun g hg => loadLoop_frame _ loadedO c.optimizers g hg,
    ⟨fun he => ?_, fun h => loadLoop_allKnown _ loadedS c.schedulers h⟩,
    fun h => loadLoop_unknown _ loadedS c.schedulers h,
    fun g hg => loadLoop_frame _ loadedS c.schedulers g hg⟩
  · intro k hk
    intro hnone
    obtain ⟨k', h1, _, _⟩ := loadLoop_unknown
      (fun o v => { o with internalState := v }) loadedO c.optimizers ⟨k, hk, hnone⟩
    rw [show (c.load_optimizers loadedO).1
        = (loadLoop (fun o v => { o with internalState := v }) loadedO c.optimizers).1
      from rfl, h1] at he
    cases he
  · intro k hk
    intro hnone
    obtain ⟨k', h1, _, _⟩ := loadLoop_unknown
      (fun sc v => { sc with internalState := v }) loadedS c.schedulers ⟨k, hk, hnone⟩
    rw [show (c.load_schedulers loadedS).1
        = (loadLoop (fun sc v => { sc with internalState := v }) loadedS c.schedulers).1
      from rfl, h1] at he
    cases he

/-- Witness for the amended C7 at a concrete coordinator: an unknown key
`"z"` in the loaded state produces a `KeyError` naming an unknown key, and
a key-free load leaves the live group's entry unchanged. -/
theorem C7_load_state_mismatch_witness :
    ((Optimizers.init [("g", entrySched)] [("g", [0])]).coord.load_optimizers
        [("z", 5)]).1 = none ↔
      ∀ k ∈ akeys [("z", (5 : Nat))],
        alookup k (Optimizers.init [("g", entrySched)] [("g", [0])]).coord.optimizers ≠ none :=
  (C7_load_state_mismatch
    (Optimizers.init [("g", entrySched)] [("g", [0])]).coord [("z", 5)] []).1

/-! ### Stepping: per-group characterizations -/

/-- The group name an event is about. -/
def Event.group : Event → String
  | .unscaleEv g => g
  | .clipEv g _ => g
  | .scalerStepEv g => g
  | .optStepEv g => g
  | .schedStepEv g => g
  | .zeroGradEv g => g

theorem wfGroupB_spec {c : Optimizers} {g : String} {opt : TorchOptimizer}
    (h : wfGroupB c (g, opt) = true) :
    ∃ entry ocfg ps, alookup g c.config = some entry ∧ entry.optimizer = some ocfg ∧
      alookup g c.parameters = some ps ∧ opt.param_groups = [ps] := by
  unfold wfGroupB at h
  cases he : alookup g c.config with
  | none => rw [he] at h; cases h
  | some entry =>
    cases hp : alookup g c.parameters with
    | none => rw [he, hp] at h; cases h
    | some ps =>
      rw [he, hp] at h
      simp only [Bool.and_eq_true, decide_eq_true_eq] at h
      obtain ⟨ho, hpg⟩ := h
      obtain ⟨ocfg, ho'⟩ := Option.isSome_iff_exists.mp ho
      exact ⟨entry, ocfg, ps, rfl, ho', rfl, hpg⟩

theorem hasGradB_eq (c : Optimizers) (g : String) (opt : TorchOptimizer) {ps : List Nat}
    (s : Store) (hp : alookup g c.parameters = some ps) (hpg : opt.param_groups = [ps]) :
    hasGradB s opt = decide (groupHasGrad c s g) := by
  rw [Bool.eq_iff_iff]
  simp only [hasGradB, hpg, decide_eq_true_eq, groupHasGrad, hp, List.any_eq_true]
  constructor
  · rintro ⟨ps', hps', pid, hpid, hg⟩
    simp at hps'
    exact ⟨ps, rfl, pid, hps' ▸ hpid, hg⟩
  · rintro ⟨ps', hps', pid, hpid, hg⟩
    cases hps'
    exact ⟨ps, by simp, pid, hpid, hg⟩

theorem hasGradB_congr {s₁ s₂ : Store}
    (h : ∀ pid, (s₁ pid).gradVec = (s₂ pid).gradVec) (opt : TorchOptimizer) :
    hasGradB s₁ opt = hasGradB s₂ opt := by
  unfold hasGradB
  congr 1
  funext ps
  congr 1
  funext pid
  rw [h pid]

theorem scalerStepGroup_eq (c : Optimizers) (g : String) (opt : TorchOptimizer)
    {entry : ConfigEntry} {ocfg : OptimizerConfig} {ps : List Nat} (s : Store)
    (he : alookup g c.config = some entry) (ho : entry.optimizer = some ocfg)
    (hp : alookup g c.parameters = some ps) :
    scalerStepGroup c g opt s =
      match ocfg.max_norm with
      | none =>
        if hasGradB s opt
        then .ok ({ opt with stepCount := opt.stepCount + 1 }, s, [.scalerStepEv g])
        else .ok (opt, s, [])
      | some t =>
        if hasGradB s opt
        then .ok ({ opt with stepCount := opt.stepCount + 1 }, clipStore s ps t,
                  [.unscaleEv g, .clipEv g t, .scalerStepEv g])
        else .ok (opt, clipStore s ps t, [.unscaleEv g, .clipEv g t]) := by
  unfold scalerStepGroup
  rw [he]
  simp only [ho]
  cases hm : ocfg.max_norm with
  | none => simp only [hm]; rfl
  | some t =>
    simp only [hm, hp]
    rw [hasGradB_congr (fun pid => clipStore_gradVec s ps t pid) opt]
    by_cases hgr : hasGradB s opt = true
    · simp [hgr]
    · rw [Bool.not_eq_true] at hgr
      simp [hgr]

theorem plainStepGroup_eq (c : Optimizers) (g : String) (opt : TorchOptimizer)
    {entry : ConfigEntry} {ocfg : OptimizerConfig} {ps : List Nat} (s : Store)
    (he : alookup g c.config = some entry) (ho : entry.optimizer = some ocfg)
    (hp : alookup g c.parameters = some ps) :
    plainStepGroup c g opt s =
      match ocfg.max_norm with
      | none => .ok ({ opt with stepCount := opt.stepCount + 1 }, s, [.optStepEv g])
      | some t => .ok ({ opt with stepCount := opt.stepCount + 1 }, clipStore s ps t,
                       [.clipEv g t, .optStepEv g]) := by
  unfold plainStepGroup
  rw [he]
  simp only [ho]
  cases hm : ocfg.max_norm with
  | none => simp only [hm]; rfl
  | some t => simp only [hm, hp]; rfl

/-- The external calls the scaler-integrated stepping loop makes for one
selected group name, relative to the store at the start of the call. -/
def nameChunk (c : Optimizers) (s : Store) (g : String) : List Event :=
  match alookup g c.config with
  | some entry =>
    match entry.optimizer with
    | some ocfg =>
      (match ocfg.max_norm with
       | none => []
       | some t => [.unscaleEv g, .clipEv g t]) ++
      (if groupHasGrad c s g then [.scalerStepEv g] else [])
    | none => []
  | none => []

/-- The external calls the plain stepping loop makes for one group name. -/
def plainChunk (c : Optimizers) (g : String) : List Event :=
  match alookup g c.config with
  | some entry =>
    match entry.optimizer with
    | some ocfg =>
      (match ocfg.max_norm with
       | none => []
       | some t => [.clipEv g t]) ++ [.optStepEv g]
    | none => []
  | none => []

theorem nameChunk_group {c : Optimizers} {s : Store} {g : String} {e : Event}
    (h : e ∈ nameChunk c s g) : e.group = g := by
  unfold nameChunk at h
  cases hc : alookup g c.config with
  | none => simp only [hc] at h; cases h
  | some entry =>
    simp only [hc] at h
    cases ho : entry.optimizer with
    | none => simp only [ho] at h; cases h
    | some ocfg =>
      simp only [ho] at h
      cases hm : ocfg.max_norm with
      | none =>
        simp only [hm] at h
        by_cases hgr : groupHasGrad c s g
        · simp only [if_pos hgr, List.nil_append, List.mem_singleton] at h
          rw [h]; rfl
        · simp [hgr] at h
      | some t =>
        simp only [hm] at h
        by_cases hgr : groupHasGrad c s g
        · simp only [if_pos hgr] at h
          simp at h
          rcases h with h | h | h <;> (rw [h]; rfl)
        · simp only [if_neg hgr] at h
          simp at h
          rcases h with h | h <;> (rw [h]; rfl)

theorem plainChunk_group {c : Optimizers} {g : String} {e : Event}
    (h : e ∈ plainChunk c g) : e.group = g := by
  unfold plainChunk at h
  cases hc : alookup g c.config with
  | none => simp only [hc] at h; cases h
  | some entry =>
    simp only [hc] at h
    cases ho : entry.optimizer with
    | none => simp only [ho] at h; cases h
    | some ocfg =>
      simp only [ho] at h
      cases hm : ocfg.max_norm with
      | none =>
        simp only [hm] at h
        simp at h
        rw [h]; rfl
      | some t =>
        simp only [hm] at h
        simp at h
        rcases h with h | h <;> (rw [h]; rfl)

theorem groupHasGrad_congr {s₁ s₂ : Store} (c : Optimizers) (g : String)
    (h : ∀ pid, (s₁ pid).gradVec = (s₂ pid).gradVec) :
    groupHasGrad c s₁ g ↔ groupHasGrad c s₂ g := by
  unfold groupHasGrad
  constructor
  · rintro ⟨ps, hps, pid, hpid, hg⟩
    exact ⟨ps, hps, pid, hpid, h pid ▸ hg⟩
  · rintro ⟨ps, hps, pid, hpid, hg⟩
    exact ⟨ps, hps, pid, hpid, (h pid).symm ▸ hg⟩

theorem nameChunk_congr {s₁ s₂ : Store} (c : Optimizers) (g : String)
    (h : ∀ pid, (s₁ pid).gradVec = (s₂ pid).gradVec) :
    nameChunk c s₁ g = nameChunk c s₂ g := by
  unfold nameChunk
  cases hc : alookup g c.config with
  | none => rfl
  | some entry =>
    simp only
    cases ho : entry.optimizer with
    | none => rfl
    | some ocfg =>
      simp only
      congr 1
      by_cases hgr : groupHasGrad c s₁ g
      · rw [if_pos hgr, if_pos ((groupHasGrad_congr c g h).mp hgr)]
      · rw [if_neg hgr, if_neg (fun hx => hgr ((groupHasGrad_congr c g h).mpr hx))]

theorem flatMapCongr {α β : Type} {l : List α} {f h : α → List β}
    (hfh : ∀ a ∈ l, f a = h a) : l.flatMap f = l.flatMap h := by
  induction l with
  | nil => rfl
  | cons hd tl ih =>
    simp only [List.flatMap_cons]
    rw [hfh hd (List.mem_cons_self _ _), ih (fun a ha => hfh a (List.mem_cons_of_mem _ ha))]

theorem ossAllLoop_spec (c : Optimizers) (L : List (String × TorchOptimizer)) :
    ∀ s : Store, (∀ p ∈ L, wfGroupB c p = true) →
      (ossAllLoop c L s).1 = none ∧
      (∀ pid, ((ossAllLoop c L s).2.2.1 pid).gradVec = (s pid).gradVec) ∧
      (ossAllLoop c L s).2.2.2 = L.flatMap (fun p => nameChunk c s p.1) := by
  induction L with
  | nil => intro s _; exact ⟨rfl, fun pid => rfl, rfl⟩
  | cons hd rest ih =>
    obtain ⟨g, opt⟩ := hd
    intro s hwf
    obtain ⟨entry, ocfg, ps, he, ho, hp, hpg⟩ :=
      wfGroupB_spec (hwf (g, opt) (List.mem_cons_self _ _))
    have heq := scalerStepGroup_eq c g opt s he ho hp
    have hgrad := hasGradB_eq c g opt s hp hpg
    have hwfrest : ∀ p ∈ rest, wfGroupB c p = true :=
      fun p hp' => hwf p (List.mem_cons_of_mem _ hp')
    cases hm : ocfg.max_norm with
    | none =>
      simp only [hm] at heq
      by_cases hgr : hasGradB s opt = true
      · have hgr' : groupHasGrad c s g := by
          rw [hgrad] at hgr
          simpa using hgr
        rw [if_pos hgr] at heq
        obtain ⟨h1, h2, h3⟩ := ih s hwfrest
        simp only [ossAllLoop, heq]
        refine ⟨h1, h2, ?_⟩
        rw [h3]
        simp only [List.flatMap_cons]
        congr 1
        simp only [nameChunk, he, ho, hm, if_pos hgr']
        rfl
      · have hgr' : ¬groupHasGrad c s g := by
          rw [hgrad] at hgr
          simpa using hgr
        rw [if_neg hgr] at heq
        obtain ⟨h1, h2, h3⟩ := ih s hwfrest
        simp only [ossAllLoop, heq]
        refine ⟨h1, h2, ?_⟩
        rw [h3]
        simp only [List.flatMap_cons]
        congr 1
        simp only [nameChunk, he, ho, hm, if_neg hgr']
        rfl
    | some t =>
      simp only [hm] at heq
      have hpres : ∀ pid, ((clipStore s ps t) pid).gradVec = (s pid).gradVec :=
        fun pid => clipStore_gradVec s ps t pid
      have hrestev : rest.flatMap (fun p => nameChunk c (clipStore s ps t) p.1)
          = rest.flatMap (fun p => nameChunk c s p.1) :=
        flatMapCongr (fun p _ => nameChunk_congr c p.1 hpres)
      by_cases hgr : hasGradB s opt = true
      · have hgr' : groupHasGrad c s g := by
          rw [hgrad] at hgr
          simpa using hgr
        rw [if_pos hgr] at heq
        obtain ⟨h1, h2, h3⟩ := ih (clipStore s ps t) hwfrest
        simp only [ossAllLoop, heq]
        refine ⟨h1, fun pid => (h2 pid).trans (hpres pid), ?_⟩
        rw [h3, hrestev]
        simp only [List.flatMap_cons]
        congr 1
        simp only [nameChunk, he, ho, hm, if_pos hgr']
        rfl
      · have hgr' : ¬groupHasGrad c s g := by
          rw [hgrad] at hgr
          simpa using hgr
        rw [if_neg hgr] at heq
        obtain ⟨h1, h2, h3⟩ := ih (clipStore s ps t) hwfrest
        simp only [ossAllLoop, heq]
        refine ⟨h1, fun pid => (h2 pid).trans (hpres pid), ?_⟩
        rw [h3, hrestev]
        simp only [List.flatMap_cons]
        congr 1
        simp only [nameChunk, he, ho, hm, if_neg hgr']
        rfl

theorem wfGroupB_pg {c : Optimizers} {k : String} {o o' : TorchOptimizer}
    (h : o'.param_groups = o.param_groups) (hw : wfGroupB c (k, o) = true) :
    wfGroupB c (k, o') = true := by
  unfold wfGroupB at hw ⊢
  dsimp only at hw ⊢
  cases hc : alookup k c.config with
  | none => simp [hc] at hw
  | some entry =>
    cases hpp : alookup k c.parameters with
    | none => simp [hc, hpp] at hw
    | some ps =>
      simp only [hc, hpp, Bool.and_eq_true, decide_eq_true_eq] at hw ⊢
      exact ⟨hw.1, h ▸ hw.2⟩

theorem wf_aupdate (c : Optimizers) (k : String) (opt opt' : TorchOptimizer)
    (hpg : opt'.param_groups = opt.param_groups) :
    ∀ opts : List (String × TorchOptimizer),
      (∀ p ∈ opts, wfGroupB c p = true) → alookup k opts = some opt →
      ∀ p ∈ aupdate k (fun _ => opt') opts, wfGroupB c p = true := by
  intro opts
  induction opts with
  | nil => intro _ hl; cases hl
  | cons hd rest ih =>
    obtain ⟨k', v⟩ := hd
    intro hwf hl p hpmem
    by_cases hk : k = k'
    · subst hk
      have hl' : v = opt := by simpa [alookup] using hl
      have hpm' : p ∈ (k, opt') :: rest := by simpa [aupdate] using hpmem
      rcases List.mem_cons.mp hpm' with h | h
      · rw [h]
        exact wfGroupB_pg
          (hpg.trans (congrArg TorchOptimizer.param_groups hl').symm)
          (hwf (k, v) (List.mem_cons_self _ _))
      · exact hwf p (List.mem_cons_of_mem _ h)
    · simp only [alookup, if_neg hk] at hl
      simp only [aupdate, if_neg hk] at hpmem
      rcases List.mem_cons.mp hpmem with h | h
      · rw [h]
        exact hwf (k', v) (List.mem_cons_self _ _)
      · exact ih (fun q hq => hwf q (List.mem_cons_of_mem _ hq)) hl p h

theorem ossSomeLoop_spec (c : Optimizers) (names : List String) :
    ∀ (opts : List (String × TorchOptimizer)) (s : Store),
      (∀ p ∈ opts, wfGroupB c p = true) →
      (∀ g ∈ names, alookup g opts ≠ none) →
      (ossSomeLoop c names opts s).1 = none ∧
      (∀ pid, ((ossSomeLoop c names opts s).2.2.1 pid).gradVec = (s pid).gradVec) ∧
      (ossSomeLoop c names opts s).2.2.2 = names.flatMap (nameChunk c s) := by
  induction names with
  | nil => intro opts s _ _; exact ⟨rfl, fun pid => rfl, rfl⟩
  | cons g rest ih =>
    intro opts s hwf hnames
    cases hl : alookup g opts with
    | none => exact absurd hl (hnames g (List.mem_cons_self _ _))
    | some opt =>
      obtain ⟨entry, ocfg, ps, he, ho, hp, hpg⟩ :=
        wfGroupB_spec (hwf (g, opt) (alookup_mem hl))
      have heq := scalerStepGroup_eq c g opt s he ho hp
      have hgrad := hasGradB_eq c g opt s hp hpg
      have hnrest : ∀ opt'' : TorchOptimizer, ∀ g' ∈ rest,
          alookup g' (aupdate g (fun _ => opt'') opts) ≠ none := by
        intro opt'' g' hg' hx
        exact hnames g' (List.mem_cons_of_mem _ hg')
          ((alookup_aupdate_none g' g (fun _ => opt'') opts).mp hx)
      cases hm : ocfg.max_norm with
      | none =>
        simp only [hm] at heq
        by_cases hgr : hasGradB s opt = true
        · have hgr' : groupHasGrad c s g := by rw [hgrad] at hgr; simpa using hgr
          rw [if_pos hgr] at heq
          obtain ⟨h1, h2, h3⟩ := ih (aupdate g
              (fun _ => { opt with stepCount := opt.stepCount + 1 }) opts) s
            (wf_aupdate c g opt { opt with stepCount := opt.stepCount + 1 } rfl opts hwf hl)
            (hnrest _)
          simp only [ossSomeLoop, hl, heq]
          refine ⟨h1, h2, ?_⟩
          rw [h3]
          simp only [List.flatMap_cons]
          congr 1
          simp only [nameChunk, he, ho, hm, if_pos hgr']
          rfl
        · have hgr' : ¬groupHasGrad c s g := by rw [hgrad] at hgr; simpa using hgr
          rw [if_neg hgr] at heq
          obtain ⟨h1, h2, h3⟩ := ih (aupdate g (fun _ => opt) opts) s
            (wf_aupdate c g opt opt rfl opts hwf hl) (hnrest _)
          simp only [ossSomeLoop, hl, heq]
          refine ⟨h1, h2, ?_⟩
          rw [h3]
          simp only [List.flatMap_cons]
          congr 1
          simp only [nameChunk, he, ho, hm, if_neg hgr']
          rfl
      | some t =>
        simp only [hm] at heq
        have hpres : ∀ pid, ((clipStore s ps t) pid).gradVec = (s pid).gradVec :=
          fun pid => clipStore_gradVec s ps t pid
        have hrestev : rest.flatMap (nameChunk c (clipStore s ps t))
            = rest.flatMap (nameChunk c s) :=
          flatMapCongr (fun g' _ => nameChunk_congr c g' hpres)
        by_cases hgr : hasGradB s opt = true
        · have hgr' : groupHasGrad c s g := by rw [hgrad] at hgr; simpa using hgr
          rw [if_pos hgr] at heq
          obtain ⟨h1, h2, h3⟩ := ih (aupdate g
              (fun _ => { opt with stepCount := opt.stepCount + 1 }) opts) (clipStore s ps t)
            (wf_aupdate c g opt { opt with stepCount := opt.stepCount + 1 } rfl opts hwf hl)
            (hnrest _)
          simp only [ossSomeLoop, hl, heq]
          refine ⟨h1, fun pid => (h2 pid).trans (hpres pid), ?_⟩
          rw [h3, hrestev]
          simp only [List.flatMap_cons]
          congr 1
          simp only [nameChunk, he, ho, hm, if_pos hgr']
          rfl
        · have hgr' : ¬groupHasGrad c s g := by rw [hgrad] at hgr; simpa using hgr
          rw [if_neg hgr] at heq
          obtain ⟨h1, h2, h3⟩ := ih (aupdate g (fun _ => opt) opts) (clipStore s ps t)
            (wf_aupdate c g opt opt rfl opts hwf hl) (hnrest _)
          simp only [ossSomeLoop, hl, heq]
          refine ⟨h1, fun pid => (h2 pid).trans (hpres pid), ?_⟩
          rw [h3, hrestev]
          simp only [List.flatMap_cons]
          congr 1
          simp only [nameChunk, he, ho, hm, if_neg hgr']
          rfl

/-- The group has a config entry carrying an optimizer config. -/
def cfgHasOpt (c : Optimizers) (g : String) : Prop :=
  ∃ entry ocfg, alookup g c.config = some entry ∧ entry.optimizer = some ocfg

theorem scalerStep_mem_nameChunk {c : Optimizers} {s : Store} {h g : String}
    (hmem : Event.scalerStepEv g ∈ nameChunk c s h) : h = g ∧ groupHasGrad c s g := by
  have hgrp : g = h := nameChunk_group hmem
  subst hgrp
  refine ⟨rfl, ?_⟩
  unfold nameChunk at hmem
  cases hc : alookup g c.config with
  | none => simp only [hc] at hmem; cases hmem
  | some entry =>
    simp only [hc] at hmem
    cases ho : entry.optimizer with
    | none => simp only [ho] at hmem; cases hmem
    | some ocfg =>
      simp only [ho] at hmem
      by_cases hgr : groupHasGrad c s g
      · exact hgr
      · exfalso
        cases hm : ocfg.max_norm with
        | none => simp [hm, hgr] at hmem
        | some t => simp [hm, hgr] at hmem

theorem scalerStep_mem_nameChunk_self {c : Optimizers} {s : Store} {g : String}
    (hgr : groupHasGrad c s g) (hcfg : cfgHasOpt c g) :
    Event.scalerStepEv g ∈ nameChunk c s g := by
  obtain ⟨entry, ocfg, he, ho⟩ := hcfg
  unfold nameChunk
  simp only [he, ho, if_pos hgr]
  cases ocfg.max_norm <;> simp

theorem count_nameChunk_ne {c : Optimizers} {s : Store} {h g : String} (hne : h ≠ g) :
    (nameChunk c s h).count (Event.scalerStepEv g) = 0 := by
  rw [List.count_eq_zero]
  intro hmem
  exact hne (scalerStep_mem_nameChunk hmem).1

theorem count_nameChunk_self {c : Optimizers} {s : Store} {g : String} (hcfg : cfgHasOpt c g) :
    (nameChunk c s g).count (Event.scalerStepEv g)
      = if groupHasGrad c s g then 1 else 0 := by
  obtain ⟨entry, ocfg, he, ho⟩ := hcfg
  unfold nameChunk
  simp only [he, ho]
  by_cases hgr : groupHasGrad c s g
  · rw [if_pos hgr, if_pos hgr]
    cases ocfg.max_norm <;> simp [List.count_cons, List.count_append]
  · rw [if_neg hgr, if_neg hgr]
    cases ocfg.max_norm <;> simp [List.count_cons, List.count_append]

theorem count_flatMap_keys_notmem {c : Optimizers} {s : Store} {g : String} :
    ∀ ks : List String, g ∉ ks →
      ((ks.flatMap (nameChunk c s)).count (Event.scalerStepEv g)) = 0 := by
  intro ks
  induction ks with
  | nil => intro _; rfl
  | cons k rest ih =>
    intro hg
    simp only [List.flatMap_cons, List.count_append]
    rw [count_nameChunk_ne (fun h => hg (by subst h; exact List.mem_cons_self _ _)),
      ih (fun h => hg (List.mem_cons_of_mem _ h))]

theorem count_flatMap_keys {c : Optimizers} {s : Store} {g : String} :
    ∀ ks : List String, ks.Nodup → g ∈ ks → cfgHasOpt c g →
      ((ks.flatMap (nameChunk c s)).count (Event.scalerStepEv g))
        = if groupHasGrad c s g then 1 else 0 := by
  intro ks
  induction ks with
  | nil => intro _ hg; cases hg
  | cons k rest ih =>
    intro hnd hg hcfg
    simp only [List.flatMap_cons, List.count_append]
    by_cases hk : k = g
    · subst hk
      rw [count_nameChunk_self hcfg,
        count_flatMap_keys_notmem rest (List.nodup_cons.mp hnd).1]
      simp
    · rw [count_nameChunk_ne hk, ih (List.nodup_cons.mp hnd).2
        (by rcases List.mem_cons.mp hg with h | h
            · exact absurd h.symm hk
            · exact h) hcfg]
      simp

theorem akeys_mem_exists {α : Type} {g : String} {l : List (String × α)}
    (h : g ∈ akeys l) : ∃ v, (g, v) ∈ l := by
  unfold akeys at h
  obtain ⟨p, hp, hpe⟩ := List.mem_map.mp h
  rcases p with ⟨a, b⟩
  cases hpe
  exact ⟨b, hp⟩

theorem WF_cfgHasOpt {c : Optimizers} {g : String} (hwf : WF c)
    (hg : g ∈ akeys c.optimizers) : cfgHasOpt c g := by
  obtain ⟨opt, hmem⟩ := akeys_mem_exists hg
  obtain ⟨entry, ocfg, ps, he, ho, _, _⟩ := wfGroupB_spec (hwf.2 (g, opt) hmem)
  exact ⟨entry, ocfg, he, ho⟩

theorem flatMapFst {α β : Type} (l : List (String × α)) (f : String → List β) :
    l.flatMap (fun p => f p.1) = (akeys l).flatMap f := by
  induction l with
  | nil => rfl
  | cons hd tl ih => simp only [List.flatMap_cons, akeys, List.map_cons, ih]

/-- C3: in every scaler-integrated stepping call — over all groups or over a
named subset — a selected group is delegated to the scaler's conditional
step if and only if at least one of that group's parameters carries a
non-null gradient; a group with no non-null gradients is not stepped.  Both
calls complete without error. -/
theorem C3_scaler_step_iff_grads (c : Optimizers) (gs : GradScaler) (s : Store)
    (names : List String) (hwf : WF c)
    (hnames : ∀ g ∈ names, alookup g c.optimizers ≠ none) :
    (c.optimizer_scaler_step_all gs s).err = none ∧
    (c.optimizer_scaler_step_some gs names s).err = none ∧
    (∀ g ∈ akeys c.optimizers,
      (Event.scalerStepEv g ∈ (c.optimizer_scaler_step_all gs s).events ↔
        groupHasGrad c s g)) ∧
    (∀ g, Event.scalerStepEv g ∈ (c.optimizer_scaler_step_some gs names s).events ↔
      (g ∈ names ∧ groupHasGrad c s g)) := by
  obtain ⟨h1, _, h3⟩ := ossAllLoop_spec c c.optimizers s hwf.2
  obtain ⟨h1', _, h3'⟩ := ossSomeLoop_spec c names c.optimizers s hwf.2 hnames
  refine ⟨h1, h1', ?_, ?_⟩
  · intro g hg
    constructor
    · intro hmem
      rw [show (c.optimizer_scaler_step_all gs s).events
          = c.optimizers.flatMap (fun p => nameChunk c s p.1) from h3] at hmem
      obtain ⟨p, _, hpc⟩ := List.mem_flatMap.mp hmem
      exact (scalerStep_mem_nameChunk hpc).2
    · intro hgr
      rw [show (c.optimizer_scaler_step_all gs s).events
          = c.optimizers.flatMap (fun p => nameChunk c s p.1) from h3]
      obtain ⟨opt, hmem⟩ := akeys_mem_exists hg
      exact List.mem_flatMap.mpr ⟨(g, opt), hmem,
        scalerStep_mem_nameChunk_self hgr (WF_cfgHasOpt hwf hg)⟩
  · intro g
    constructor
    · intro hmem
      rw [show (c.optimizer_scaler_step_some gs names s).events
          = names.flatMap (nameChunk c s) from h3'] at hmem
      obtain ⟨h', hh', hpc⟩ := List.mem_flatMap.mp hmem
      obtain ⟨heq, hgr⟩ := scalerStep_mem_nameChunk hpc
      exact ⟨heq ▸ hh', hgr⟩
    · rintro ⟨hgn, hgr⟩
      rw [show (c.optimizer_scaler_step_some gs names s).events
          = names.flatMap (nameChunk c s) from h3']
      have hcfg : cfgHasOpt c g := by
        cases hx : alookup g c.optimizers with
        | none => exact absurd hx (hnames g hgn)
        | some opt =>
          obtain ⟨entry, ocfg, ps, he, ho, _, _⟩ := wfGroupB_spec (hwf.2 _ (alookup_mem hx))
          exact ⟨entry, ocfg, he, ho⟩
      exact List.mem_flatMap.mpr ⟨g, hgn, scalerStep_mem_nameChunk_self hgr hcfg⟩

/-- Witness for C3 at a concrete coordinator with one group `"g"` whose
single parameter carries the gradient `[3, 4]`. -/
theorem C3_scaler_step_iff_grads_witness :
    WF (Optimizers.init [("g", entryA)] [("g", [0])]).coord ∧
    (∀ g ∈ ["g"],
      alookup g (Optimizers.init [("g", entryA)] [("g", [0])]).coord.optimizers ≠ none) ∧
    (((Optimizers.init [("g", entryA)] [("g", [0])]).coord.optimizer_scaler_step_all
        ⟨1⟩ storeGrad).err = none ∧
     ((Optimizers.init [("g", entryA)] [("g", [0])]).coord.optimizer_scaler_step_some
        ⟨1⟩ ["g"] storeGrad).err = none ∧
     (∀ g ∈ akeys (Optimizers.init [("g", entryA)] [("g", [0])]).coord.optimizers,
       (Event.scalerStepEv g ∈
          ((Optimizers.init [("g", entryA)] [("g", [0])]).coord.optimizer_scaler_step_all
            ⟨1⟩ storeGrad).events ↔
        groupHasGrad (Optimizers.init [("g", entryA)] [("g", [0])]).coord storeGrad g)) ∧
     (∀ g, Event.scalerStepEv g ∈
          ((Optimizers.init [("g", entryA)] [("g", [0])]).coord.optimizer_scaler_step_some
            ⟨1⟩ ["g"] storeGrad).events ↔
        (g ∈ ["g"] ∧
          groupHasGrad (Optimizers.init [("g", entryA)] [("g", [0])]).coord storeGrad g))) :=
  ⟨by decide, by decide,
    C3_scaler_step_iff_grads _ ⟨1⟩ storeGrad ["g"] (by decide) (by decide)⟩

/-- C4 counterexample: a coordinator with the selected group `"g"` whose
only parameter has no gradient; the scaler-integrated stepping call
completes, but the scaler's step is invoked zero times for `"g"`, not
exactly once as claimed. -/
theorem C4_counterexample :
    "g" ∈ akeys (Optimizers.init [("g", entryA)] [("g", [0])]).coord.optimizers ∧
    ((Optimizers.init [("g", entryA)] [("g", [0])]).coord.optimizer_scaler_step_all
      ⟨1⟩ storeNone).err = none ∧
    (((Optimizers.init [("g", entryA)] [("g", [0])]).coord.optimizer_scaler_step_all
      ⟨1⟩ storeNone).events).count (Event.scalerStepEv "g") = 0 := by
  decide

/-- C4 (amended): in every scaler-integrated stepping call, the scaler's
step operation is invoked *at most* once per selected group: exactly once
for each selected group with at least one non-null gradient, and zero times
for a selected group with none — so the scaler observes one skip/no-skip
outcome per call only for the groups that are actually stepped. -/
theorem C4_scaler_step_count (c : Optimizers) (gs : GradScaler) (s : Store)
    (names : List String) (hwf : WF c)
    (hnames : ∀ g ∈ names, alookup g c.optimizers ≠ none)
    (hnd : names.Nodup) :
    (∀ g ∈ akeys c.optimizers,
      (((c.optimizer_scaler_step_all gs s).events).count (Event.scalerStepEv g)
        = if groupHasGrad c s g then 1 else 0)) ∧
    (∀ g ∈ names,
      (((c.optimizer_scaler_step_some gs names s).events).count (Event.scalerStepEv g)
        = if groupHasGrad c s g then 1 else 0)) := by
  obtain ⟨_, _, h3⟩ := ossAllLoop_spec c c.optimizers s hwf.2
  obtain ⟨_, _, h3'⟩ := ossSomeLoop_spec c names c.optimizers s hwf.2 hnames
  constructor
  · intro g hg
    rw [show (c.optimizer_scaler_step_all gs s).events
        = c.optimizers.flatMap (fun p => nameChunk c s p.1) from h3,
      flatMapFst c.optimizers (nameChunk c s)]
    exact count_flatMap_keys (akeys c.optimizers) hwf.1 hg (WF_cfgHasOpt hwf hg)
  · intro g hgn
    rw [show (c.optimizer_scaler_step_some gs names s).events
        = names.flatMap (nameChunk c s) from h3']
    have hcfg : cfgHasOpt c g := by
      cases hx : alookup g c.optimizers with
      | none => exact absurd hx (hnames g hgn)
      | some opt =>
        obtain ⟨entry, ocfg, ps, he, ho, _, _⟩ := wfGroupB_spec (hwf.2 _ (alookup_mem hx))
        exact ⟨entry, ocfg, he, ho⟩
    exact count_flatMap_keys names hnd hgn hcfg

/-- Witness for the amended C4 at the same concrete coordinator, with a
gradient present. -/
theorem C4_scaler_step_count_witness :
    WF (Optimizers.init [("g", entryA)] [("g", [0])]).coord ∧
    (∀ g ∈ ["g"],
      alookup g (Optimizers.init [("g", entryA)] [("g", [0])]).coord.optimizers ≠ none) ∧
    (["g"] : List String).Nodup ∧
    ((∀ g ∈ akeys (Optimizers.init [("g", entryA)] [("g", [0])]).coord.optimizers,
      ((((Optimizers.init [("g", entryA)] [("g", [0])]).coord.optimizer_scaler_step_all
        ⟨1⟩ storeGrad).events).count (Event.scalerStepEv g)
        = if groupHasGrad (Optimizers.init [("g", entryA)] [("g", [0])]).coord storeGrad g
          then 1 else 0)) ∧
     (∀ g ∈ ["g"],
      ((((Optimizers.init [("g", entryA)] [("g", [0])]).coord.optimizer_scaler_step_some
        ⟨1⟩ ["g"] storeGrad).events).count (Event.scalerStepEv g)
        = if groupHasGrad (Optimizers.init [("g", entryA)] [("g", [0])]).coord storeGrad g
          then 1 else 0))) :=
  ⟨by decide, by decide, by decide,
    C4_scaler_step_count _ ⟨1⟩ storeGrad ["g"] (by decide) (by decide) (by decide)⟩

/-! ### Subset operations touch only the named groups (C8) -/

theorem scalerStepGroup_frame (c : Optimizers) (g : String) (opt : TorchOptimizer)
    {entry : ConfigEntry} {ocfg : OptimizerConfig} {ps : List Nat} (s : Store)
    (he : alookup g c.config = some entry) (ho : entry.optimizer = some ocfg)
    (hp : alookup g c.parameters = some ps) :
    ∃ opt' s' evs, scalerStepGroup c g opt s = .ok (opt', s', evs) ∧
      opt'.param_groups = opt.param_groups ∧
      (∀ pid, pid ∉ ps → s' pid = s pid) := by
  have heq := scalerStepGroup_eq c g opt s he ho hp
  cases hm : ocfg.max_norm with
  | none =>
    simp only [hm] at heq
    by_cases hgr : hasGradB s opt = true
    · rw [if_pos hgr] at heq
      exact ⟨_, _, _, heq, rfl, fun pid _ => rfl⟩
    · rw [if_neg hgr] at heq
      exact ⟨_, _, _, heq, rfl, fun pid _ => rfl⟩
  | some t =>
    simp only [hm] at heq
    by_cases hgr : hasGradB s opt = true
    · rw [if_pos hgr] at heq
      exact ⟨_, _, _, heq, rfl, fun pid hpid => clipStore_frame hpid⟩
    · rw [if_neg hgr] at heq
      exact ⟨_, _, _, heq, rfl, fun pid hpid => clipStore_frame hpid⟩

theorem ossSomeLoop_frame (c : Optimizers) (names : List String) :
    ∀ (opts : List (String × TorchOptimizer)) (s : Store),
      (∀ p ∈ opts, wfGroupB c p = true) →
      (∀ g ∈ names, alookup g opts ≠ none) →
      (∀ h, h ∉ names → alookup h (ossSomeLoop c names opts s).2.1 = alookup h opts) ∧
      (∀ pid, (∀ g ∈ names, ∀ ps, alookup g c.parameters = some ps → pid ∉ ps) →
        (ossSomeLoop c names opts s).2.2.1 pid = s pid) := by
  induction names with
  | nil => intro opts s _ _; exact ⟨fun h _ => rfl, fun pid _ => rfl⟩
  | cons g rest ih =>
    intro opts s hwf hnames
    cases hl : alookup g opts with
    | none => exact absurd hl (hnames g (List.mem_cons_self _ _))
    | some opt =>
      obtain ⟨entry, ocfg, ps, he, ho, hp, hpg⟩ :=
        wfGroupB_spec (hwf (g, opt) (alookup_mem hl))
      obtain ⟨opt', s', evs, hstep, hpg', hframe⟩ := scalerStepGroup_frame c g opt s he ho hp
      have hwf' := wf_aupdate c g opt opt' (hpg'.trans hpg |>.trans hpg.symm) opts hwf hl
      have hnames' : ∀ g' ∈ rest, alookup g' (aupdate g (fun _ => opt') opts) ≠ none := by
        intro g' hg' hx
        exact hnames g' (List.mem_cons_of_mem _ hg')
          ((alookup_aupdate_none g' g (fun _ => opt') opts).mp hx)
      obtain ⟨ih1, ih2⟩ := ih (aupdate g (fun _ => opt') opts) s' hwf' hnames'
      simp only [ossSomeLoop, hl, hstep]
      constructor
      · intro h hnot
        have hne : h ≠ g := fun hx => hnot (hx ▸ List.mem_cons_self _ _)
        rw [ih1 h (fun hx => hnot (List.mem_cons_of_mem _ hx)),
          alookup_aupdate_ne _ _ hne]
      · intro pid hall
        rw [ih2 pid (fun g' hg' ps' hps' => hall g' (List.mem_cons_of_mem _ hg') ps' hps'),
          hframe pid (hall g (List.mem_cons_self _ _) ps hp)]

theorem zgSomeLoop_frame (c : Optimizers) (names : List String) :
    ∀ s : Store,
      (∀ p ∈ c.optimizers, wfGroupB c p = true) →
      (∀ g ∈ names, alookup g c.optimizers ≠ none) →
      (zgSomeLoop c names s).1 = none ∧
      (∀ pid, (∀ g ∈ names, ∀ ps, alookup g c.parameters = some ps → pid ∉ ps) →
        (zgSomeLoop c names s).2.1 pid = s pid) := by
  induction names with
  | nil => intro s _ _; exact ⟨rfl, fun pid _ => rfl⟩
  | cons g rest ih =>
    intro s hwf hnames
    cases hl : alookup g c.optimizers with
    | none => exact absurd hl (hnames g (List.mem_cons_self _ _))
    | some opt =>
      obtain ⟨entry, ocfg, ps, he, ho, hp, hpg⟩ :=
        wfGroupB_spec (hwf (g, opt) (alookup_mem hl))
      have hnames' : ∀ g' ∈ rest, alookup g' c.optimizers ≠ none :=
        fun g' hg' => hnames g' (List.mem_cons_of_mem _ hg')
      obtain ⟨ih1, ih2⟩ := ih (zeroGradOpt s opt) hwf hnames'
      simp only [zgSomeLoop, hl]
      refine ⟨ih1, ?_⟩
      intro pid hall
      rw [ih2 pid (fun g' hg' ps' hps' => hall g' (List.mem_cons_of_mem _ hg') ps' hps'),
        zeroGradOpt_frame ?_]
      rw [hpg]
      intro ps' hps'
      rw [List.mem_singleton.mp hps']
      exact hall g (List.mem_cons_self _ _) ps hp

/-- C8: the subset operations — subset gradient-zeroing and subset
scaler-integrated stepping — mutate only the named groups: both calls
complete; zeroing leaves the coordinator object untouched; stepping leaves
config, schedulers and parameters untouched and the optimizer entry of
every group outside the supplied names unchanged; and the gradients of
every parameter belonging to a group outside the supplied names are left
exactly as they were, by both operations. -/
theorem C8_subset_ops_frame (c : Optimizers) (gs : GradScaler) (s : Store)
    (names : List String) (hwf : WF c)
    (hnames : ∀ g ∈ names, alookup g c.optimizers ≠ none)
    (hdisj : ParamsDisjoint c) :
    (c.zero_grad_some names s).err = none ∧
    (c.zero_grad_some names s).coord = c ∧
    (c.optimizer_scaler_step_some gs names s).err = none ∧
    (c.optimizer_scaler_step_some gs names s).coord.config = c.config ∧
    (c.optimizer_scaler_step_some gs names s).coord.schedulers = c.schedulers ∧
    (c.optimizer_scaler_step_some gs names s).coord.parameters = c.parameters ∧
    (∀ h, h ∉ names →
      alookup h (c.optimizer_scaler_step_some gs names s).coord.optimizers
        = alookup h c.optimizers) ∧
    (∀ h ps, h ∉ names → (h, ps) ∈ c.parameters →
      ∀ pid ∈ ps, (c.zero_grad_some names s).store pid = s pid ∧
        (c.optimizer_scaler_step_some gs names s).store pid = s pid) := by
  obtain ⟨hz1, hz2⟩ := zgSomeLoop_frame c names s hwf.2 hnames
  obtain ⟨hs1, _, _⟩ := ossSomeLoop_spec c names c.optimizers s hwf.2 hnames
  obtain ⟨hf1, hf2⟩ := ossSomeLoop_frame c names c.optimizers s hwf.2 hnames
  refine ⟨hz1, rfl, hs1, rfl, rfl, rfl, hf1, ?_⟩
  intro h ps hnot hmem pid hpid
  have hcond : ∀ g ∈ names, ∀ ps', alookup g c.parameters = some ps' → pid ∉ ps' := by
    intro g hgn ps' hps'
    have hne : h ≠ g := fun hx => hnot (hx ▸ hgn)
    exact hdisj (h, ps) hmem (g, ps') (alookup_mem hps') hne pid hpid
  exact ⟨hz2 pid hcond, hf2 pid hcond⟩

/-- Witness for C8 at a concrete two-group coordinator, zeroing/stepping
only group `"a"`: group `"b"` and its parameter are untouched. -/
theorem C8_subset_ops_frame_witness :
    WF (Optimizers.init [("a", entryA), ("b", entryA)] [("a", [0]), ("b", [1])]).coord ∧
    (∀ g ∈ ["a"], alookup g
      (Optimizers.init [("a", entryA), ("b", entryA)]
        [("a", [0]), ("b", [1])]).coord.optimizers ≠ none) ∧
    ParamsDisjoint
      (Optimizers.init [("a", entryA), ("b", entryA)] [("a", [0]), ("b", [1])]).coord ∧
    (((Optimizers.init [("a", entryA), ("b", entryA)]
        [("a", [0]), ("b", [1])]).coord.zero_grad_some ["a"] storeGrad).err = none ∧
     ((Optimizers.init [("a", entryA), ("b", entryA)]
        [("a", [0]), ("b", [1])]).coord.zero_grad_some ["a"] storeGrad).coord
       = (Optimizers.init [("a", entryA), ("b", entryA)] [("a", [0]), ("b", [1])]).coord ∧
     ((Optimizers.init [("a", entryA), ("b", entryA)]
        [("a", [0]), ("b", [1])]).coord.optimizer_scaler_step_some
        ⟨1⟩ ["a"] storeGrad).err = none ∧
     ((Optimizers.init [("a", entryA), ("b", entryA)]
        [("a", [0]), ("b", [1])]).coord.optimizer_scaler_step_some
        ⟨1⟩ ["a"] storeGrad).coord.config
       = (Optimizers.init [("a", entryA), ("b", entryA)]
          [("a", [0]), ("b", [1])]).coord.config ∧
     ((Optimizers.init [("a", entryA), ("b", entryA)]
        [("a", [0]), ("b", [1])]).coord.optimizer_scaler_step_some
        ⟨1⟩ ["a"] storeGrad).coord.schedulers
       = (Optimizers.init [("a", entryA), ("b", entryA)]
          [("a", [0]), ("b", [1])]).coord.schedulers ∧
     ((Optimizers.init [("a", entryA), ("b", entryA)]
        [("a", [0]), ("b", [1])]).coord.optimizer_scaler_step_some
        ⟨1⟩ ["a"] storeGrad).coord.parameters
       = (Optimizers.init [("a", entryA), ("b", entryA)]
          [("a", [0]), ("b", [1])]).coord.parameters ∧
     (∀ h, h ∉ ["a"] →
       alookup h ((Optimizers.init [("a", entryA), ("b", entryA)]
          [("a", [0]), ("b", [1])]).coord.optimizer_scaler_step_some
          ⟨1⟩ ["a"] storeGrad).coord.optimizers
         = alookup h (Optimizers.init [("a", entryA), ("b", entryA)]
            [("a", [0]), ("b", [1])]).coord.optimizers) ∧
     (∀ h ps, h ∉ ["a"] →
       (h, ps) ∈ (Optimizers.init [("a", entryA), ("b", entryA)]
          [("a", [0]), ("b", [1])]).coord.parameters →
       ∀ pid ∈ ps,
         ((Optimizers.init [("a", entryA), ("b", entryA)]
            [("a", [0]), ("b", [1])]).coord.zero_grad_some ["a"] storeGrad).store pid
           = storeGrad pid ∧
         ((Optimizers.init [("a", entryA), ("b", entryA)]
            [("a", [0]), ("b", [1])]).coord.optimizer_scaler_step_some
            ⟨1⟩ ["a"] storeGrad).store pid = storeGrad pid)) :=
  ⟨by decide, by decide, by decide,
    C8_subset_ops_frame _ ⟨1⟩ storeGrad ["a"] (by decide) (by decide) (by decide)⟩

/-! ### Plain stepping: clip before step (C6) -/

theorem clipStore_congr {s₁ s₂ : Store} {ps : List Nat} (t : ℚ)
    (h : ∀ q ∈ ps, s₁ q = s₂ q) :
    ∀ pid ∈ ps, clipStore s₁ ps t pid = clipStore s₂ ps t pid := by
  intro pid hpid
  simp only [clipStore]
  rw [groupNormSq_congr h, h pid hpid]

theorem plainChunk_eq {c : Optimizers} {g : String} {entry : ConfigEntry}
    {ocfg : OptimizerConfig} (he : alookup g c.config = some entry)
    (ho : entry.optimizer = some ocfg) :
    plainChunk c g = (match ocfg.max_norm with
      | none => [Event.optStepEv g]
      | some t => [Event.clipEv g t, Event.optStepEv g]) := by
  unfold plainChunk
  simp only [he, ho]
  cases ocfg.max_norm <;> rfl

theorem osAllLoop_spec (c : Optimizers) (L : List (String × TorchOptimizer)) :
    ∀ s : Store, (∀ p ∈ L, wfGroupB c p = true) →
      (osAllLoop c L s).1 = none ∧
      (osAllLoop c L s).2.2.2 = L.flatMap (fun p => plainChunk c p.1) := by
  induction L with
  | nil => intro s _; exact ⟨rfl, rfl⟩
  | cons hd rest ih =>
    obtain ⟨g, opt⟩ := hd
    intro s hwf
    obtain ⟨entry, ocfg, ps, he, ho, hp, _⟩ :=
      wfGroupB_spec (hwf (g, opt) (List.mem_cons_self _ _))
    have heq := plainStepGroup_eq c g opt s he ho hp
    have hwfrest : ∀ p ∈ rest, wfGroupB c p = true :=
      fun p hp' => hwf p (List.mem_cons_of_mem _ hp')
    cases hm : ocfg.max_norm with
    | none =>
      simp only [hm] at heq
      obtain ⟨h1, h2⟩ := ih s hwfrest
      simp only [osAllLoop, heq]
      refine ⟨h1, ?_⟩
      rw [h2]
      simp only [List.flatMap_cons]
      congr 1
      rw [plainChunk_eq he ho, hm]
    | some t =>
      simp only [hm] at heq
      obtain ⟨h1, h2⟩ := ih (clipStore s ps t) hwfrest
      simp only [osAllLoop, heq]
      refine ⟨h1, ?_⟩
      rw [h2]
      simp only [List.flatMap_cons]
      congr 1
      rw [plainChunk_eq he ho, hm]

theorem osAllLoop_frame (c : Optimizers) (L : List (String × TorchOptimizer)) :
    ∀ s : Store, (∀ p ∈ L, wfGroupB c p = true) →
      ∀ pid, (∀ p ∈ L, ∀ ps, alookup p.1 c.parameters = some ps → pid ∉ ps) →
        (osAllLoop c L s).2.2.1 pid = s pid := by
  induction L with
  | nil => intro s _ pid _; rfl
  | cons hd rest ih =>
    obtain ⟨g, opt⟩ := hd
    intro s hwf pid hall
    obtain ⟨entry, ocfg, ps, he, ho, hp, _⟩ :=
      wfGroupB_spec (hwf (g, opt) (List.mem_cons_self _ _))
    have heq := plainStepGroup_eq c g opt s he ho hp
    have hwfrest : ∀ p ∈ rest, wfGroupB c p = true :=
      fun p hp' => hwf p (List.mem_cons_of_mem _ hp')
    have hallrest : ∀ p ∈ rest, ∀ ps', alookup p.1 c.parameters = some ps' → pid ∉ ps' :=
      fun p hp' => hall p (List.mem_cons_of_mem _ hp')
    cases hm : ocfg.max_norm with
    | none =>
      simp only [hm] at heq
      simp only [osAllLoop, heq]
      exact ih s hwfrest pid hallrest
    | some t =>
      simp only [hm] at heq
      simp only [osAllLoop, heq]
      rw [ih (clipStore s ps t) hwfrest pid hallrest,
        clipStore_frame (hall (g, opt) (List.mem_cons_self _ _) ps hp)]

theorem osAllLoop_store (c : Optimizers) (L : List (String × TorchOptimizer)) :
    ∀ s : Store,
      (∀ p ∈ L, wfGroupB c p = true) →
      (akeys L).Nodup →
      (∀ p ∈ L, ∀ q ∈ L, p.1 ≠ q.1 → ∀ ps₁ ps₂,
        alookup p.1 c.parameters = some ps₁ → alookup q.1 c.parameters = some ps₂ →
        ∀ pid ∈ ps₁, pid ∉ ps₂) →
      ∀ g opt, (g, opt) ∈ L →
        ∀ entry ocfg ps, alookup g c.config = some entry → entry.optimizer = some ocfg →
          alookup g c.parameters = some ps →
          ∀ pid ∈ ps,
            (∀ t, ocfg.max_norm = some t →
              (osAllLoop c L s).2.2.1 pid = clipStore s ps t pid) ∧
            (ocfg.max_norm = none → (osAllLoop c L s).2.2.1 pid = s pid) := by
  induction L with
  | nil =>
    intro s _ _ _ g opt hmem
    cases hmem
  | cons hd rest ih =>
    obtain ⟨h0, o0⟩ := hd
    intro s hwf hnd hdisj g opt hmem entry ocfg ps he ho hp pid hpid
    obtain ⟨entry0, ocfg0, ps0, he0, ho0, hp0, _⟩ :=
      wfGroupB_spec (hwf (h0, o0) (List.mem_cons_self _ _))
    have heq := plainStepGroup_eq c h0 o0 s he0 ho0 hp0
    have hwfrest : ∀ p ∈ rest, wfGroupB c p = true :=
      fun p hp' => hwf p (List.mem_cons_of_mem _ hp')
    have hh0notin : h0 ∉ akeys rest := by
      have h := hnd
      simp only [akeys, List.map_cons] at h
      exact (List.nodup_cons.mp h).1
    rcases List.mem_cons.mp hmem with hhead | htail
    · -- the target group is the head
      have hg : g = h0 := congrArg Prod.fst hhead
      have hopt : opt = o0 := congrArg Prod.snd hhead
      subst hg
      rw [he0] at he
      cases he
      rw [ho0] at ho
      cases ho
      rw [hp0] at hp
      cases hp
      -- after processing the head, the rest of the loop leaves pid alone
      have hrest : ∀ s' : Store, (osAllLoop c rest s').2.2.1 pid = s' pid := by
        intro s'
        refine osAllLoop_frame c rest s' hwfrest pid ?_
        intro q hq ps' hps'
        have hqk : q.1 ∈ akeys rest := List.mem_map_of_mem Prod.fst hq
        have hne : g ≠ q.1 := fun hx => hh0notin (hx ▸ hqk)
        exact hdisj (g, o0) (List.mem_cons_self _ _) q (List.mem_cons_of_mem _ hq)
          hne ps ps' hp0 hps' pid hpid
      cases hm : ocfg.max_norm with
      | none =>
        simp only [hm] at heq
        simp only [osAllLoop, heq]
        exact ⟨fun t ht => (nomatch ht), fun _ => hrest s⟩
      | some t =>
        simp only [hm] at heq
        simp only [osAllLoop, heq]
        refine ⟨fun t' ht' => ?_, fun hx => by cases hx⟩
        cases ht'
        exact hrest (clipStore s ps t)
    · -- the target group lies in the tail
      have hgk : g ∈ akeys rest := List.mem_map_of_mem Prod.fst htail
      have hne : h0 ≠ g := fun hx => hh0notin (hx ▸ hgk)
      have hndrest : (akeys rest).Nodup := by
        have h := hnd
        simp only [akeys, List.map_cons] at h
        exact (List.nodup_cons.mp h).2
      have hdisjrest : ∀ p ∈ rest, ∀ q ∈ rest, p.1 ≠ q.1 → ∀ ps₁ ps₂,
          alookup p.1 c.parameters = some ps₁ → alookup q.1 c.parameters = some ps₂ →
          ∀ pid' ∈ ps₁, pid' ∉ ps₂ :=
        fun p hp' q hq' => hdisj p (List.mem_cons_of_mem _ hp') q (List.mem_cons_of_mem _ hq')
      -- pid belongs to the tail group, so the head's clip leaves it (and all of ps) alone
      have hpsfree : ∀ q ∈ ps, q ∉ ps0 := by
        intro q hq
        exact hdisj (g, opt) (List.mem_cons_of_mem _ htail) (h0, o0)
          (List.mem_cons_self _ _) (fun hx => hne hx.symm) ps ps0 hp hp0 q hq
      have ihapp := fun s' => ih s' hwfrest hndrest hdisjrest g opt htail
        entry ocfg ps he ho hp pid hpid
      cases hm0 : ocfg0.max_norm with
      | none =>
        simp only [hm0] at heq
        simp only [osAllLoop, heq]
        exact ihapp s
      | some t0 =>
        simp only [hm0] at heq
        simp only [osAllLoop, heq]
        have hagree : ∀ q ∈ ps, clipStore s ps0 t0 q = s q :=
          fun q hq => clipStore_frame (hpsfree q hq)
        obtain ⟨ih1, ih2⟩ := ihapp (clipStore s ps0 t0)
        constructor
        · intro t ht
          rw [ih1 t ht]
          exact clipStore_congr t hagree pid hpid
        · intro hx
          rw [ih2 hx]
          exact hagree pid hpid

theorem clipStore_pointwise (s : Store) (ps : List Nat) (t : ℚ) {pid : Nat} (hpid : pid ∈ ps) :
    clipStore s ps t pid =
      (if ((s pid).gradVec).isSome
       then { s pid with gradScaleSq := (s pid).gradScaleSq * clipCoefSq t (groupNormSq s ps) }
       else s pid) := by
  simp only [clipStore]
  by_cases hs : ((s pid).gradVec).isSome
  · rw [if_pos ⟨hpid, hs⟩, if_pos hs]
  · rw [if_neg (fun h => hs h.2), if_neg hs]

/-- C6: in every call of the plain step-all operation over a well-formed
coordinator with disjoint parameter groups: the call completes; for each
group with a configured maximum gradient norm `t`, the clip of that group
to `t` happens and the group's optimizer step happens right after it
(`[clip, step]` is a sublist of the trace), the group's post-call joint
squared L2 gradient norm is at most `t²`, and direction is preserved — each
parameter's gradient vector is unchanged and all the group's gradient
magnitudes are scaled by one common nonnegative factor; a group without a
configured maximum norm is stepped with no clip event and its gradients
untouched. -/
theorem C6_step_all_clip_then_step (c : Optimizers) (s : Store)
    (hwf : WF c) (hdisj : ParamsDisjoint c) :
    (c.optimizer_step_all s).err = none ∧
    (∀ g, g ∈ akeys c.optimizers →
      ∀ entry ocfg ps, alookup g c.config = some entry → entry.optimizer = some ocfg →
        alookup g c.parameters = some ps →
        (∀ t, ocfg.max_norm = some t →
          List.Sublist [Event.clipEv g t, Event.optStepEv g]
            (c.optimizer_step_all s).events ∧
          groupNormSq ((c.optimizer_step_all s).store) ps ≤ t ^ 2 ∧
          (∀ pid ∈ ps, (((c.optimizer_step_all s).store) pid).gradVec = (s pid).gradVec) ∧
          (∃ coef, 0 ≤ coef ∧ ∀ pid ∈ ps,
            ((c.optimizer_step_all s).store) pid =
              (if ((s pid).gradVec).isSome
               then { s pid with gradScaleSq := (s pid).gradScaleSq * coef }
               else s pid))) ∧
        (ocfg.max_norm = none →
          Event.optStepEv g ∈ (c.optimizer_step_all s).events ∧
          (∀ t, Event.clipEv g t ∉ (c.optimizer_step_all s).events) ∧
          (∀ pid ∈ ps, ((c.optimizer_step_all s).store) pid = s pid))) := by
  obtain ⟨h1, h2⟩ := osAllLoop_spec c c.optimizers s hwf.2
  have hdisj' : ∀ p ∈ c.optimizers, ∀ q ∈ c.optimizers, p.1 ≠ q.1 → ∀ ps₁ ps₂,
      alookup p.1 c.parameters = some ps₁ → alookup q.1 c.parameters = some ps₂ →
      ∀ pid ∈ ps₁, pid ∉ ps₂ := by
    intro p _ q _ hne ps₁ ps₂ hl₁ hl₂ pid hpid
    exact hdisj (p.1, ps₁) (alookup_mem hl₁) (q.1, ps₂) (alookup_mem hl₂) hne pid hpid
  have hstore := osAllLoop_store c c.optimizers s hwf.2 hwf.1 hdisj'
  refine ⟨h1, ?_⟩
  intro g hg entry ocfg ps he ho hp
  obtain ⟨opt, hmem⟩ := akeys_mem_exists hg
  have hstoreg := hstore g opt hmem entry ocfg ps he ho hp
  constructor
  · intro t ht
    have hfinal : ∀ pid ∈ ps, (c.optimizer_step_all s).store pid = clipStore s ps t pid :=
      fun pid hpid => (hstoreg pid hpid).1 t ht
    refine ⟨?_, ?_, ?_, ?_⟩
    · obtain ⟨l1, l2, hsplit⟩ := List.append_of_mem hmem
      rw [show (c.optimizer_step_all s).events
          = c.optimizers.flatMap (fun p => plainChunk c p.1) from h2, hsplit]
      simp only [List.flatMap_append, List.flatMap_cons]
      have hchunk : plainChunk c (g, opt).1 = [Event.clipEv g t, Event.optStepEv g] := by
        rw [show (g, opt).1 = g from rfl, plainChunk_eq he ho, ht]
      rw [hchunk]
      exact ((List.sublist_append_left [Event.clipEv g t, Event.optStepEv g]
          (l2.flatMap (fun p => plainChunk c p.1))).trans
        (List.sublist_append_right (l1.flatMap (fun p => plainChunk c p.1)) _))
    · rw [groupNormSq_congr hfinal]
      exact groupNormSq_clip_le s ps t
    · intro pid hpid
      rw [hfinal pid hpid]
      exact clipStore_gradVec s ps t pid
    · exact ⟨clipCoefSq t (groupNormSq s ps), clipCoefSq_nonneg t _,
        fun pid hpid => (hfinal pid hpid).trans (clipStore_pointwise s ps t hpid)⟩
  · intro hnone
    refine ⟨?_, ?_, fun pid hpid => (hstoreg pid hpid).2 hnone⟩
    · rw [show (c.optimizer_step_all s).events
          = c.optimizers.flatMap (fun p => plainChunk c p.1) from h2]
      refine List.mem_flatMap.mpr ⟨(g, opt), hmem, ?_⟩
      rw [show (g, opt).1 = g from rfl, plainChunk_eq he ho, hnone]
      exact List.mem_singleton.mpr rfl
    · intro t hmemclip
      rw [show (c.optimizer_step_all s).events
          = c.optimizers.flatMap (fun p => plainChunk c p.1) from h2] at hmemclip
      obtain ⟨p, _, hpc⟩ := List.mem_flatMap.mp hmemclip
      have hgrp : g = p.1 := plainChunk_group hpc
      rw [← hgrp, plainChunk_eq he ho, hnone] at hpc
      simp at hpc

/-- The concrete one-group coordinator with gradient clipping at 1,
produced by construction. -/
def coordClip : Optimizers := (Optimizers.init [("g", entryClip)] [("g", [0])]).coord

/-- Witness for C6 at the concrete clipping coordinator, with parameter 0
carrying the gradient `[3, 4]` (joint norm 5, clipped to 1). -/
theorem C6_step_all_clip_then_step_witness :
    WF coordClip ∧ ParamsDisjoint coordClip ∧
    ((coordClip.optimizer_step_all storeGrad).err = none ∧
     (∀ g, g ∈ akeys coordClip.optimizers →
      ∀ entry ocfg ps, alookup g coordClip.config = some entry →
        entry.optimizer = some ocfg →
        alookup g coordClip.parameters = some ps →
        (∀ t, ocfg.max_norm = some t →
          List.Sublist [Event.clipEv g t, Event.optStepEv g]
            (coordClip.optimizer_step_all storeGrad).events ∧
          groupNormSq ((coordClip.optimizer_step_all storeGrad).store) ps ≤ t ^ 2 ∧
          (∀ pid ∈ ps, (((coordClip.optimizer_step_all storeGrad).store) pid).gradVec
            = (storeGrad pid).gradVec) ∧
          (∃ coef, 0 ≤ coef ∧ ∀ pid ∈ ps,
            ((coordClip.optimizer_step_all storeGrad).store) pid =
              (if ((storeGrad pid).gradVec).isSome
               then { storeGrad pid with
                        gradScaleSq := (storeGrad pid).gradScaleSq * coef }
               else storeGrad pid))) ∧
        (ocfg.max_norm = none →
          Event.optStepEv g ∈ (coordClip.optimizer_step_all storeGrad).events ∧
          (∀ t, Event.clipEv g t ∉ (coordClip.optimizer_step_all storeGrad).events) ∧
          (∀ pid ∈ ps, ((coordClip.optimizer_step_all storeGrad).store) pid
            = storeGrad pid)))) :=
  ⟨by decide, by decide,
    C6_step_all_clip_then_step coordClip storeGrad (by decide) (by decide)⟩
